import Mathlib

/-
  Verification development for the ocp-tessellate conversion engine
  (src/ocp_tessellate/convert.py and src/ocp_tessellate/ocp_utils.py).

  Shallow embedding conventions:
  * Scalars are modelled with the rationals, since no claim depends on
    floating-point rounding.
  * Placements (OCCT TopLoc_Location values) are modelled as an arbitrary
    group L: the geometry-kernel adapter only exposes compose, invert and
    the identity placement on locations, together with the group laws
    (spec section 6: compose_placement, invert, identity).
  * TopoDS shapes are modelled as trees: a basic shape carries its
    topological type, an opaque geometry identifier and its location;
    a compound carries a list of sub-shapes and its own location.
    Moving a shape (TopoDS_Shape.Moved) composes a location onto the
    shape root location; shape equality is structural equality, which is
    what OCCT TopoDS_Shape.IsEqual implements (same geometry and same
    location).
-/

set_option maxHeartbeats 1000000

namespace OcpTess

instance {e a : Type} [DecidableEq e] [DecidableEq a] :
    DecidableEq (Except e a) := fun x y =>
  match x, y with
  | .error u, .error v =>
      if h : u = v then .isTrue (by rw [h])
      else .isFalse (by intro hc; injection hc; contradiction)
  | .ok u, .ok v =>
      if h : u = v then .isTrue (by rw [h])
      else .isFalse (by intro hc; injection hc; contradiction)
  | .error _, .ok _ => .isFalse (by intro hc; cases hc)
  | .ok _, .error _ => .isFalse (by intro hc; cases hc)

/-- An RGBA color with rational channels (utils.Color payload). -/
structure PColor where
  r : ℚ
  g : ℚ
  b : ℚ
  a : ℚ
deriving DecidableEq, Repr

/-- Renderable kind of a leaf, convert.py get_kind codomain plus shell
(unify also branches on the kind string shell). -/
inductive Kind where
  | vertex
  | edge
  | face
  | shell
  | solid
deriving DecidableEq, Repr

/-- Topological type of a basic (non-compound) TopoDS shape.  Wires are
not modelled: the dispatch engine explodes wires into their edges before
unify ever sees them, so only these five types reach the data model. -/
inductive ShapeType where
  | vertex
  | edge
  | face
  | shell
  | solid
deriving DecidableEq, Repr

/-- convert.py get_kind: map the topological type to the renderable kind;
shells are normalized to face handling. -/
def get_kind : ShapeType → Kind
  | .vertex => .vertex
  | .edge => .edge
  | .face => .face
  | .shell => .face
  | .solid => .solid

/-- A TopoDS shape over a location group L: either a basic shape with an
opaque geometry id and a location, or a compound of sub-shapes with its
own location. -/
inductive TopoShape (L : Type) where
  | basic (typ : ShapeType) (geo : ℕ) (loc : L)
  | compound (elems : List (TopoShape L)) (loc : L)

set_option linter.unusedSectionVars false
set_option linter.unreachableTactic false
set_option linter.unusedTactic false
set_option linter.unnecessarySeqFocus false

variable {L : Type} [Group L] [DecidableEq L]

mutual

/-- Decidable structural equality of shapes (OCCT IsEqual: same geometry
and same location). -/
def TopoShape.deq [DecidableEq L] : (a b : TopoShape L) → Decidable (a = b)
  | .basic t g l, .basic t2 g2 l2 =>
      if h : t = t2 ∧ g = g2 ∧ l = l2 then
        isTrue (by rcases h with ⟨h1, h2, h3⟩; rw [h1, h2, h3])
      else
        isFalse (by intro hc; injection hc with e1 e2 e3; exact h ⟨e1, e2, e3⟩)
  | .basic _ _ _, .compound _ _ => isFalse (by intro hc; cases hc)
  | .compound _ _, .basic _ _ _ => isFalse (by intro hc; cases hc)
  | .compound es l, .compound es2 l2 =>
      match TopoShape.deqList es es2, decEq l l2 with
      | isTrue h1, isTrue h2 => isTrue (by rw [h1, h2])
      | isFalse h1, _ =>
          isFalse (by intro hc; injection hc with e1 _; exact h1 e1)
      | _, isFalse h2 =>
          isFalse (by intro hc; injection hc with _ e2; exact h2 e2)

/-- Decidable equality of shape lists, mutually with TopoShape.deq. -/
def TopoShape.deqList [DecidableEq L] :
    (a b : List (TopoShape L)) → Decidable (a = b)
  | [], [] => isTrue rfl
  | [], _ :: _ => isFalse (by intro hc; cases hc)
  | _ :: _, [] => isFalse (by intro hc; cases hc)
  | a :: as, b :: bs =>
      match TopoShape.deq a b, TopoShape.deqList as bs with
      | isTrue h1, isTrue h2 => isTrue (by rw [h1, h2])
      | isFalse h1, _ =>
          isFalse (by intro hc; injection hc with e1 _; exact h1 e1)
      | _, isFalse h2 =>
          isFalse (by intro hc; injection hc with _ e2; exact h2 e2)

end

instance : DecidableEq (TopoShape L) := TopoShape.deq

/-- TopoDS_Shape.Location: the location stored at the root of a shape. -/
def TopoShape.location : TopoShape L → L
  | .basic _ _ l => l
  | .compound _ l => l

/-- TopoDS_Shape.Moved: compose a location onto the root location of a
shape (geometry-kernel adapter operation, spec section 6). -/
def TopoShape.moved (s : TopoShape L) (m : L) : TopoShape L :=
  match s with
  | .basic t g l => .basic t g (m * l)
  | .compound es l => .compound es (m * l)

/-- ocp_utils.make_compound: build a compound holding the given shapes;
the fresh compound carries the identity location. -/
def make_compound (objs : List (TopoShape L)) : TopoShape L :=
  .compound objs 1

/--
convert.py create_cache_id: a content hash of the raw (non-normalized)
shapes, computed with sha256 over the kernel serialization.  The
serializer and sha256 are external collaborators (spec section 6,
content_hash); they are modelled by the injective identity key, i.e. the
cache id of a list of shapes is the list itself.
-/
def create_cache_id (objs : List (TopoShape L)) : List (TopoShape L) :=
  objs

/-- One entry of the instance table: the placement-normalized shape
paired with its cache id (convert.py OcpConverter.instances). -/
abbrev Entry (L : Type) : Type :=
  TopoShape L × List (TopoShape L)

/-- The scene-graph leaf record (cad_objects.OcpObject construction as
used by convert.py: only the keyword arguments that convert.py passes
are populated, everything else stays none). -/
structure OcpObject (L : Type) where
  kind : Kind
  ref : Option ℕ := none
  obj : Option (TopoShape L ⊕ List (TopoShape L)) := none
  name : String := ""
  loc : Option L := none
  color : Option PColor := none
  width : Option ℚ := none
  cache_id : Option (List (TopoShape L)) := none
deriving DecidableEq

/-- convert.py LINE_WIDTH. -/
def LINE_WIDTH : ℚ := 2

/-- convert.py POINT_SIZE. -/
def POINT_SIZE : ℚ := 4

/-- The linear scan of OcpConverter.get_instance: find the index of the
first instance-table entry whose stored shape equals the normalized
shape (the for-loop with enumerate over self.instances, comparing
instance[0] == obj2). -/
def scanInstances (obj2 : TopoShape L) : List (Entry L) → Option ℕ
  | [] => none
  | e :: rest =>
      if e.1 = obj2 then some 0
      else (scanInstances obj2 rest).map (· + 1)

/--
convert.py OcpConverter.get_instance: normalize the shape by moving it
with the inverse of its own location, linearly scan the instance table
for an equal normalized shape; on a hit return an OcpObject referencing
the found index, on a miss append the normalized shape and reference the
new index.  Returns the OcpObject together with the new instance table
(self.instances).
-/
def get_instance (instances : List (Entry L)) (obj : TopoShape L)
    (kind : Kind) (name : String) (color : PColor)
    (cache_id : List (TopoShape L)) : OcpObject L × List (Entry L) :=
  match scanInstances (obj.moved obj.location⁻¹) instances with
  | some i =>
      (⟨kind, some i, none, name, some obj.location, some color, none,
          some cache_id⟩,
        instances)
  | none =>
      (⟨kind, some instances.length, none, name, some obj.location,
          some color, none, some cache_id⟩,
        instances ++ [(obj.moved obj.location⁻¹, cache_id)])

/-- Placement normalization (the canonical form of spec section 4.2):
the shape moved by the inverse of its own location. -/
def normalize (s : TopoShape L) : TopoShape L :=
  s.moved s.location⁻¹

theorem normalize_location (s : TopoShape L) :
    (normalize s).location = 1 := by
  cases s <;> simp [normalize, TopoShape.moved, TopoShape.location]

theorem moved_location (s : TopoShape L) (m : L) :
    (s.moved m).location = m * s.location := by
  cases s <;> rfl

theorem normalize_moved (s : TopoShape L) (m : L) :
    normalize (s.moved m) = normalize s := by
  cases s <;> simp [normalize, TopoShape.moved, TopoShape.location, mul_assoc]

theorem scanInstances_eq_none {obj2 : TopoShape L} :
    ∀ {es : List (Entry L)}, scanInstances obj2 es = none →
      ∀ e ∈ es, e.1 ≠ obj2 := by
  intro es
  induction es with
  | nil => intro _ e he; cases he
  | cons e rest ih =>
      intro h f hf
      by_cases hv : e.1 = obj2
      · simp [scanInstances, hv] at h
      · simp [scanInstances, hv] at h
        rcases List.mem_cons.mp hf with hf | hf
        · subst hf; exact hv
        · exact ih h f hf

theorem scanInstances_append_self {obj2 : TopoShape L}
    {es : List (Entry L)} (h : scanInstances obj2 es = none)
    (cid : List (TopoShape L)) :
    scanInstances obj2 (es ++ [(obj2, cid)]) = some es.length := by
  induction es with
  | nil => simp [scanInstances]
  | cons e rest ih =>
      by_cases hv : e.1 = obj2
      · simp [scanInstances, hv] at h
      · simp [scanInstances, hv] at h ⊢
        rw [ih h]

theorem scanInstances_get {obj2 : TopoShape L} :
    ∀ {es : List (Entry L)} {i : ℕ}, scanInstances obj2 es = some i →
      i < es.length ∧ ∃ e, es[i]? = some e ∧ e.1 = obj2 := by
  intro es
  induction es with
  | nil => intro i h; simp [scanInstances] at h
  | cons e rest ih =>
      intro i h
      by_cases hv : e.1 = obj2
      · simp [scanInstances, hv] at h
        subst h
        exact ⟨by simp, e, by simp, hv⟩
      · simp [scanInstances, hv] at h
        rcases h with ⟨j, hj, rfl⟩
        rcases ih hj with ⟨hlt, f, hgetf, hf⟩
        refine ⟨by simpa using Nat.succ_lt_succ hlt, f, ?_, hf⟩
        simpa using hgetf

theorem scanInstances_lt_length {obj2 : TopoShape L}
    {es : List (Entry L)} {i : ℕ} (h : scanInstances obj2 es = some i) :
    i < es.length :=
  (scanInstances_get h).1

/-- After get_instance, the returned ref points at an entry holding the
normalized shape, the ref is in range, and the table only grows by a
suffix. -/
theorem get_instance_spec (instances : List (Entry L)) (obj : TopoShape L)
    (kind : Kind) (name : String) (color : PColor)
    (cid : List (TopoShape L)) :
    ∃ r, (get_instance instances obj kind name color cid).1.ref = some r ∧
      r < (get_instance instances obj kind name color cid).2.length ∧
      (∃ e, (get_instance instances obj kind name color cid).2[r]? =
          some e ∧ e.1 = normalize obj) ∧
      ∃ tail, (get_instance instances obj kind name color cid).2 =
        instances ++ tail := by
  cases h : scanInstances (obj.moved obj.location⁻¹) instances with
  | some i =>
      rcases scanInstances_get h with ⟨hlt, e, hgete, he⟩
      refine ⟨i, ?_, ?_, ⟨e, ?_, he⟩, [], ?_⟩
      · simp [get_instance, h]
      · simpa [get_instance, h] using hlt
      · simpa [get_instance, h] using hgete
      · simp [get_instance, h]
  | none =>
      refine ⟨instances.length, ?_, ?_, ⟨(normalize obj, cid), ?_, rfl⟩,
          [(normalize obj, cid)], ?_⟩ <;>
        simp [get_instance, h, normalize]

/-- After a call of get_instance for shape s, scanning the resulting
table for the normalized form of s finds exactly the index that the
returned OcpObject references: on a hit this is the prior first match,
on a miss it is the freshly appended entry. -/
theorem scan_after_get_instance (st : List (Entry L)) (s : TopoShape L)
    (kind : Kind) (name : String) (color : PColor)
    (cid : List (TopoShape L)) :
    scanInstances (normalize s) (get_instance st s kind name color cid).2 =
      (get_instance st s kind name color cid).1.ref := by
  cases h : scanInstances (s.moved s.location⁻¹) st with
  | some i => simp [get_instance, h, normalize]
  | none =>
      simp only [get_instance, h, normalize]
      exact scanInstances_append_self h cid

/--
C1: for two geometrically identical shapes (shapes with the same
placement-normalized geometry) interned at different placements,
get_instance returns OcpObjects with the same ref, and the second call
stores nothing (the shape is kept only once in the instance table);
for two geometrically distinct shapes the refs are distinct.  The lookup
is a linear scan for equality of the placement-normalized geometry over
the existing entries; on a miss the new entry is appended and the new
index returned.
-/
theorem claim_C1 (st : List (Entry L)) (s1 s2 : TopoShape L)
    (k1 k2 : Kind) (n1 n2 : String) (c1 c2 : PColor)
    (cid1 cid2 : List (TopoShape L)) :
    (normalize s1 = normalize s2 →
      (get_instance (get_instance st s1 k1 n1 c1 cid1).2 s2 k2 n2 c2
          cid2).1.ref = (get_instance st s1 k1 n1 c1 cid1).1.ref ∧
      (get_instance (get_instance st s1 k1 n1 c1 cid1).2 s2 k2 n2 c2
          cid2).2 = (get_instance st s1 k1 n1 c1 cid1).2) ∧
    (normalize s1 ≠ normalize s2 →
      (get_instance (get_instance st s1 k1 n1 c1 cid1).2 s2 k2 n2 c2
          cid2).1.ref ≠ (get_instance st s1 k1 n1 c1 cid1).1.ref) ∧
    (match scanInstances (normalize s1) st with
      | some i => (get_instance st s1 k1 n1 c1 cid1).1.ref = some i ∧
          (get_instance st s1 k1 n1 c1 cid1).2 = st
      | none => (get_instance st s1 k1 n1 c1 cid1).1.ref =
            some st.length ∧
          (get_instance st s1 k1 n1 c1 cid1).2 =
            st ++ [(normalize s1, cid1)]) := by
  rcases get_instance_spec st s1 k1 n1 c1 cid1 with
    ⟨r, href, hr, ⟨e1, hgete1, he1⟩, tail, happ⟩
  refine ⟨?_, ?_, ?_⟩
  · intro hn
    have hscan : scanInstances (normalize s2)
        (get_instance st s1 k1 n1 c1 cid1).2 = some r := by
      rw [← hn, scan_after_get_instance, href]
    constructor
    · rw [href]
      simp [get_instance, normalize] at hscan ⊢
      rw [hscan]
    · simp [get_instance, normalize] at hscan ⊢
      rw [hscan]
  · intro hn hcontra
    rcases get_instance_spec (get_instance st s1 k1 n1 c1 cid1).2 s2 k2 n2
        c2 cid2 with ⟨r2, href2, hr2, ⟨e2, hgete2, he2⟩, tail2, happ2⟩
    rw [href, href2] at hcontra
    have hrr : r2 = r := by injection hcontra
    subst hrr
    apply hn
    have hsame : (get_instance (get_instance st s1 k1 n1 c1 cid1).2 s2 k2 n2
        c2 cid2).2[r2]? = (get_instance st s1 k1 n1 c1 cid1).2[r2]? := by
      rw [happ2]
      exact List.getElem?_append_left hr
    rw [hsame, hgete1] at hgete2
    have he12 : e1 = e2 := Option.some.inj hgete2
    rw [← he1, ← he2, he12]
  · cases h : scanInstances (normalize s1) st with
    | some i =>
        simp only [normalize] at h
        exact ⟨by simp [get_instance, h], by simp [get_instance, h]⟩
    | none =>
        simp only [normalize] at h
        exact ⟨by simp [get_instance, h], by simp [get_instance, h, normalize]⟩

/-- Concrete witness for claim C1: two basic shapes with the same
geometry at placements 0 and 5 (in the additive-integer location group)
share ref 0 with a single table entry, and a geometrically distinct
shape gets ref 1. -/
theorem claim_C1_witness :
    (normalize (L := Multiplicative ℤ)
        (.basic .solid 7 (Multiplicative.ofAdd 0)) =
      normalize (.basic .solid 7 (Multiplicative.ofAdd 5))) ∧
    (get_instance (get_instance ([] : List (Entry (Multiplicative ℤ)))
        (.basic .solid 7 (Multiplicative.ofAdd 0)) .solid "a" ⟨1, 1, 1, 1⟩
        []).2 (.basic .solid 7 (Multiplicative.ofAdd 5)) .solid "b"
        ⟨1, 1, 1, 1⟩ []).1.ref =
      (get_instance ([] : List (Entry (Multiplicative ℤ)))
        (.basic .solid 7 (Multiplicative.ofAdd 0)) .solid "a" ⟨1, 1, 1, 1⟩
        []).1.ref := by
  have h := claim_C1 ([] : List (Entry (Multiplicative ℤ)))
    (.basic .solid 7 (Multiplicative.ofAdd 0))
    (.basic .solid 7 (Multiplicative.ofAdd 5)) .solid .solid "a" "b"
    ⟨1, 1, 1, 1⟩ ⟨1, 1, 1, 1⟩ [] []
  have hn : normalize (L := Multiplicative ℤ)
      (.basic .solid 7 (Multiplicative.ofAdd 0)) =
      normalize (.basic .solid 7 (Multiplicative.ofAdd 5)) := by decide
  exact ⟨hn, (h.1 hn).1⟩

/-
  ===========================================================================
  Bounding volume (ocp_utils.py class BoundingBox), claims C3 and C4.
  ===========================================================================
-/

/-- The six extents of ocp_utils.BoundingBox (the derived xsize, center
and max fields of _calc are pure functions of these and recomputed after
every mutation, so they are modelled as functions, not stored fields). -/
structure BoundingBox where
  xmin : ℚ
  xmax : ℚ
  ymin : ℚ
  ymax : ℚ
  zmin : ℚ
  zmax : ℚ
deriving DecidableEq, Repr

/-- The argument to BoundingBox.update, which in the source dispatches
on isinstance: a BoundingBox, a dict of extents, or anything else
(in particular None), which hits the raise branch. -/
inductive BBParam where
  | box (b : BoundingBox)
  | dict (b : BoundingBox)
  | invalid
deriving DecidableEq, Repr

/--
ocp_utils.BoundingBox.update: merge the given bounds into self.  For a
BoundingBox or a dict, each min extent is combined with min (or with max
if minimize) and each max extent with max (or min); anything else raises
(the source raise statement).  Returns the updated box.
-/
def BoundingBox.update (self : BoundingBox) (bb : BBParam)
    (minimize : Bool) : Except String BoundingBox :=
  match bb with
  | .box b =>
      .ok ⟨if minimize then max b.xmin self.xmin else min b.xmin self.xmin,
        if minimize then min b.xmax self.xmax else max b.xmax self.xmax,
        if minimize then max b.ymin self.ymin else min b.ymin self.ymin,
        if minimize then min b.ymax self.ymax else max b.ymax self.ymax,
        if minimize then max b.zmin self.zmin else min b.zmin self.zmin,
        if minimize then min b.zmax self.zmax else max b.zmax self.zmax⟩
  | .dict b =>
      .ok ⟨if minimize then max b.xmin self.xmin else min b.xmin self.xmin,
        if minimize then min b.xmax self.xmax else max b.xmax self.xmax,
        if minimize then max b.ymin self.ymin else min b.ymin self.ymin,
        if minimize then min b.ymax self.ymax else max b.ymax self.ymax,
        if minimize then max b.zmin self.zmin else min b.zmin self.zmin,
        if minimize then min b.zmax self.zmax else max b.zmax self.zmax⟩
  | .invalid => .error "Wrong bounding box param"

/-- The successful result of an update with a BoundingBox argument
(the update loop of combined_bb and tessellate_group only folds over
valid boxes, where update never fails). -/
def BoundingBox.merge (self b : BoundingBox) : BoundingBox :=
  ⟨min b.xmin self.xmin, max b.xmax self.xmax, min b.ymin self.ymin,
    max b.ymax self.ymax, min b.zmin self.zmin, max b.zmax self.zmax⟩

theorem update_box_eq_merge (self b : BoundingBox) :
    self.update (.box b) false = .ok (self.merge b) := by
  simp [BoundingBox.update, BoundingBox.merge]

/-- Folding the boxes of a group of children into the first child box,
exactly the accumulation pattern of convert.combined_bb (bb starts as a
copy of the first box and each later box is merged with update). -/
def foldBoxes (b : BoundingBox) (bs : List BoundingBox) : BoundingBox :=
  bs.foldl BoundingBox.merge b

theorem foldBoxes_xmin (b : BoundingBox) (bs : List BoundingBox) :
    (foldBoxes b bs).xmin = bs.foldl (fun a x => min x.xmin a) b.xmin := by
  induction bs generalizing b with
  | nil => rfl
  | cons x xs ih => simp [foldBoxes, List.foldl] at ih ⊢; rw [ih]; rfl

theorem foldBoxes_xmax (b : BoundingBox) (bs : List BoundingBox) :
    (foldBoxes b bs).xmax = bs.foldl (fun a x => max x.xmax a) b.xmax := by
  induction bs generalizing b with
  | nil => rfl
  | cons x xs ih => simp [foldBoxes, List.foldl] at ih ⊢; rw [ih]; rfl

theorem foldBoxes_ymin (b : BoundingBox) (bs : List BoundingBox) :
    (foldBoxes b bs).ymin = bs.foldl (fun a x => min x.ymin a) b.ymin := by
  induction bs generalizing b with
  | nil => rfl
  | cons x xs ih => simp [foldBoxes, List.foldl] at ih ⊢; rw [ih]; rfl

theorem foldBoxes_ymax (b : BoundingBox) (bs : List BoundingBox) :
    (foldBoxes b bs).ymax = bs.foldl (fun a x => max x.ymax a) b.ymax := by
  induction bs generalizing b with
  | nil => rfl
  | cons x xs ih => simp [foldBoxes, List.foldl] at ih ⊢; rw [ih]; rfl

theorem foldBoxes_zmin (b : BoundingBox) (bs : List BoundingBox) :
    (foldBoxes b bs).zmin = bs.foldl (fun a x => min x.zmin a) b.zmin := by
  induction bs generalizing b with
  | nil => rfl
  | cons x xs ih => simp [foldBoxes, List.foldl] at ih ⊢; rw [ih]; rfl

theorem foldBoxes_zmax (b : BoundingBox) (bs : List BoundingBox) :
    (foldBoxes b bs).zmax = bs.foldl (fun a x => max x.zmax a) b.zmax := by
  induction bs generalizing b with
  | nil => rfl
  | cons x xs ih => simp [foldBoxes, List.foldl] at ih ⊢; rw [ih]; rfl

theorem foldl_min_is_min (a : ℚ) (l : List ℚ) :
    (l.foldl (fun acc x => min x acc) a) ≤ a ∧
    (∀ x ∈ l, l.foldl (fun acc x => min x acc) a ≤ x) ∧
    (l.foldl (fun acc x => min x acc) a = a ∨
      l.foldl (fun acc x => min x acc) a ∈ l) := by
  induction l generalizing a with
  | nil => exact ⟨le_refl a, by simp, Or.inl rfl⟩
  | cons y ys ih =>
      simp only [List.foldl_cons]
      rcases ih (min y a) with ⟨h1, h2, h3⟩
      refine ⟨le_trans h1 (min_le_right y a), ?_, ?_⟩
      · intro x hx
        rcases List.mem_cons.mp hx with hx | hx
        · subst hx; exact le_trans h1 (min_le_left x a)
        · exact h2 x hx
      · rcases h3 with h3 | h3
        · rcases min_choice y a with hc | hc
          · right; rw [h3, hc]; exact List.mem_cons_self y ys
          · left; rw [h3, hc]
        · exact Or.inr (List.mem_cons_of_mem y h3)

theorem foldl_max_is_max (a : ℚ) (l : List ℚ) :
    a ≤ (l.foldl (fun acc x => max x acc) a) ∧
    (∀ x ∈ l, x ≤ l.foldl (fun acc x => max x acc) a) ∧
    (l.foldl (fun acc x => max x acc) a = a ∨
      l.foldl (fun acc x => max x acc) a ∈ l) := by
  induction l generalizing a with
  | nil => exact ⟨le_refl a, by simp, Or.inl rfl⟩
  | cons y ys ih =>
      simp only [List.foldl_cons]
      rcases ih (max y a) with ⟨h1, h2, h3⟩
      refine ⟨le_trans (le_max_right y a) h1, ?_, ?_⟩
      · intro x hx
        rcases List.mem_cons.mp hx with hx | hx
        · subst hx; exact le_trans (le_max_left x a) h1
        · exact h2 x hx
      · rcases h3 with h3 | h3
        · rcases max_choice y a with hc | hc
          · right; rw [h3, hc]; exact List.mem_cons_self y ys
          · left; rw [h3, hc]
        · exact Or.inr (List.mem_cons_of_mem y h3)


theorem foldl_min_mem (a : ℚ) (l : List ℚ) :
    (∀ x ∈ a :: l, l.foldl (fun acc y => min y acc) a ≤ x) ∧
    l.foldl (fun acc y => min y acc) a ∈ a :: l := by
  rcases foldl_min_is_min a l with ⟨h1, h2, h3⟩
  constructor
  · intro x hx
    rcases List.mem_cons.mp hx with hx | hx
    · subst hx; exact h1
    · exact h2 x hx
  · rcases h3 with h3 | h3
    · rw [h3]; exact List.mem_cons_self a l
    · exact List.mem_cons_of_mem a h3

theorem foldl_max_mem (a : ℚ) (l : List ℚ) :
    (∀ x ∈ a :: l, x ≤ l.foldl (fun acc y => max y acc) a) ∧
    l.foldl (fun acc y => max y acc) a ∈ a :: l := by
  rcases foldl_max_is_max a l with ⟨h1, h2, h3⟩
  constructor
  · intro x hx
    rcases List.mem_cons.mp hx with hx | hx
    · subst hx; exact h1
    · exact h2 x hx
  · rcases h3 with h3 | h3
    · rw [h3]; exact List.mem_cons_self a l
    · exact List.mem_cons_of_mem a h3

/--
C3: BoundingBox.update with minimize=false takes per axis the min of the
mins and the max of the maxes (the wider interval), with minimize=true
the max of the mins and min of the maxes (the narrower interval);
folding child boxes B1..Bn with update yields exactly the componentwise
min/max across all of them (every child box is contained, and each
extent is attained by some child); merging a box with itself leaves it
unchanged.
-/
theorem claim_C3 (self b b1 : BoundingBox) (bs : List BoundingBox) :
    (BoundingBox.update self (.box b) false =
      .ok ⟨min b.xmin self.xmin, max b.xmax self.xmax, min b.ymin self.ymin,
        max b.ymax self.ymax, min b.zmin self.zmin, max b.zmax self.zmax⟩) ∧
    (BoundingBox.update self (.box b) true =
      .ok ⟨max b.xmin self.xmin, min b.xmax self.xmax, max b.ymin self.ymin,
        min b.ymax self.ymax, max b.zmin self.zmin, min b.zmax self.zmax⟩) ∧
    (∀ B ∈ b1 :: bs,
      (foldBoxes b1 bs).xmin ≤ B.xmin ∧ B.xmax ≤ (foldBoxes b1 bs).xmax ∧
      (foldBoxes b1 bs).ymin ≤ B.ymin ∧ B.ymax ≤ (foldBoxes b1 bs).ymax ∧
      (foldBoxes b1 bs).zmin ≤ B.zmin ∧ B.zmax ≤ (foldBoxes b1 bs).zmax) ∧
    ((foldBoxes b1 bs).xmin ∈ (b1 :: bs).map BoundingBox.xmin ∧
      (foldBoxes b1 bs).xmax ∈ (b1 :: bs).map BoundingBox.xmax ∧
      (foldBoxes b1 bs).ymin ∈ (b1 :: bs).map BoundingBox.ymin ∧
      (foldBoxes b1 bs).ymax ∈ (b1 :: bs).map BoundingBox.ymax ∧
      (foldBoxes b1 bs).zmin ∈ (b1 :: bs).map BoundingBox.zmin ∧
      (foldBoxes b1 bs).zmax ∈ (b1 :: bs).map BoundingBox.zmax) ∧
    BoundingBox.update self (.box self) false = .ok self := by
  have hxmin := foldl_min_mem b1.xmin (bs.map BoundingBox.xmin)
  have hxmax := foldl_max_mem b1.xmax (bs.map BoundingBox.xmax)
  have hymin := foldl_min_mem b1.ymin (bs.map BoundingBox.ymin)
  have hymax := foldl_max_mem b1.ymax (bs.map BoundingBox.ymax)
  have hzmin := foldl_min_mem b1.zmin (bs.map BoundingBox.zmin)
  have hzmax := foldl_max_mem b1.zmax (bs.map BoundingBox.zmax)
  rw [List.foldl_map] at hxmin hxmax hymin hymax hzmin hzmax
  rw [← foldBoxes_xmin] at hxmin
  rw [← foldBoxes_xmax] at hxmax
  rw [← foldBoxes_ymin] at hymin
  rw [← foldBoxes_ymax] at hymax
  rw [← foldBoxes_zmin] at hzmin
  rw [← foldBoxes_zmax] at hzmax
  refine ⟨rfl, rfl, ?_, ?_, ?_⟩
  · intro B hB
    rcases List.mem_cons.mp hB with hB | hB
    · subst hB
      exact ⟨hxmin.1 B.xmin (by simp), hxmax.1 B.xmax (by simp),
        hymin.1 B.ymin (by simp), hymax.1 B.ymax (by simp),
        hzmin.1 B.zmin (by simp), hzmax.1 B.zmax (by simp)⟩
    · exact ⟨hxmin.1 B.xmin (by simp; right; exact ⟨B, hB, rfl⟩),
        hxmax.1 B.xmax (by simp; right; exact ⟨B, hB, rfl⟩),
        hymin.1 B.ymin (by simp; right; exact ⟨B, hB, rfl⟩),
        hymax.1 B.ymax (by simp; right; exact ⟨B, hB, rfl⟩),
        hzmin.1 B.zmin (by simp; right; exact ⟨B, hB, rfl⟩),
        hzmax.1 B.zmax (by simp; right; exact ⟨B, hB, rfl⟩)⟩
  · refine ⟨?_, ?_, ?_, ?_, ?_, ?_⟩ <;>
      simp only [List.map_cons] <;>
      first
      | exact hxmin.2
      | exact hxmax.2
      | exact hymin.2
      | exact hymax.2
      | exact hzmin.2
      | exact hzmax.2
  · cases self
    simp [BoundingBox.update]

/-- Concrete witness for claim C3: folding the unit box with a box that
extends to x = -1..2 attains the componentwise extremes, and self-merge
of the unit box is the identity. -/
theorem claim_C3_witness :
    ((foldBoxes ⟨0, 1, 0, 1, 0, 1⟩ [⟨-1, 2, 0, 1, 0, 1⟩]).xmin ≤ -1 ∧
      (2 : ℚ) ≤ (foldBoxes ⟨0, 1, 0, 1, 0, 1⟩ [⟨-1, 2, 0, 1, 0, 1⟩]).xmax) ∧
    BoundingBox.update ⟨0, 1, 0, 1, 0, 1⟩ (.box ⟨0, 1, 0, 1, 0, 1⟩) false =
      .ok ⟨0, 1, 0, 1, 0, 1⟩ := by
  have h := claim_C3 ⟨0, 1, 0, 1, 0, 1⟩ ⟨0, 1, 0, 1, 0, 1⟩ ⟨0, 1, 0, 1, 0, 1⟩
    [⟨-1, 2, 0, 1, 0, 1⟩]
  have hm := h.2.2.1 ⟨-1, 2, 0, 1, 0, 1⟩ (by simp)
  exact ⟨⟨hm.1, hm.2.1⟩, h.2.2.2.2⟩

/-- The fixed micro-box half-width of BoundingBox._bounding_box
(the tol=1e-6 default parameter, never overridden by callers). -/
def microtol : ℚ := 1 / 1000000

/--
ocp_utils.BoundingBox._bounding_box: the kernel bounding-box computation
(BRepBndLib.Add_s or AddOptimal_s followed by Bnd_Box.Get) is an external
collaborator and is modelled as its outcome: some raw extents in kernel
order (xmin, ymin, zmin, xmax, ymax, zmax), or none when the kernel box
IsVoid.  When non-void the values are reordered to (xmin, xmax, ymin,
ymax, zmin, zmax); when void the box is replaced by a micro-box of
half-width tol centered at the shape center of mass (BRepGProp volume
properties, also an adapter outcome) and a diagnostic line is printed.
The function is total: the void branch returns normally instead of
raising.
-/
def bounding_box_impl (kernelBox : Option (ℚ × ℚ × ℚ × ℚ × ℚ × ℚ))
    (com : ℚ × ℚ × ℚ) (tol : ℚ) : BoundingBox × List String :=
  match kernelBox with
  | some (v0, v1, v2, v3, v4, v5) => (⟨v0, v3, v1, v4, v2, v5⟩, [])
  | none =>
      (⟨com.1 - tol, com.1 + tol, com.2.1 - tol, com.2.1 + tol,
          com.2.2 - tol, com.2.2 + tol⟩,
        ["Void Bounding Box"])

/--
C4: when the kernel reports a void bounding box, BoundingBox
construction substitutes a micro-box centered at the shape center of
mass with half-width 1e-6 per axis and emits a diagnostic instead of
raising; when the kernel box is non-void, the extents pass through
(reordered) with no diagnostic.
-/
theorem claim_C4 (com : ℚ × ℚ × ℚ) (raw : ℚ × ℚ × ℚ × ℚ × ℚ × ℚ) :
    (bounding_box_impl none com microtol =
      (⟨com.1 - 1 / 1000000, com.1 + 1 / 1000000, com.2.1 - 1 / 1000000,
          com.2.1 + 1 / 1000000, com.2.2 - 1 / 1000000,
          com.2.2 + 1 / 1000000⟩,
        ["Void Bounding Box"])) ∧
    bounding_box_impl (some raw) com microtol =
      (⟨raw.1, raw.2.2.2.1, raw.2.1, raw.2.2.2.2.1, raw.2.2.1,
          raw.2.2.2.2.2⟩,
        []) := by
  constructor
  · rfl
  · rfl

/-
  ===========================================================================
  Color resolution (convert.py get_color_for_object), claim C9.
  ===========================================================================
-/

/-- Modelled from the spec: the global default color
(defaults.get_default applied to default_color; the defaults module is an
external configuration surface).  The concrete channel values are
irrelevant to every claim; a fixed grey is used. -/
def default_color : PColor := ⟨1 / 2, 1 / 2, 1 / 2, 1⟩

/-- Modelled from the spec: utils.Color (a color-space utility, out of
scope for the core) normalizes a color specification; colors are already
structured RGBA records in this embedding, so conversion is the identity
and the absent value maps to the global default. -/
def Color (c : Option PColor) : PColor :=
  c.getD default_color

/-- The kind-keyed rows of convert.py default_colors (web color names
resolved to their RGB values; the Solid entry is the literal integer
triple of the source scaled to unit range). -/
def default_colors_kind : Kind → PColor
  | .edge => ⟨186 / 255, 85 / 255, 211 / 255, 1⟩
  | .face => ⟨238 / 255, 130 / 255, 238 / 255, 1⟩
  | .shell => ⟨238 / 255, 130 / 255, 238 / 255, 1⟩
  | .solid => ⟨232 / 255, 176 / 255, 36 / 255, 1⟩
  | .vertex => ⟨186 / 255, 85 / 255, 211 / 255, 1⟩

/-- The class-name-keyed rows of convert.py default_colors (keys
TopoDS_Edge .. TopoDS_Wire); a compound's class name TopoDS_Compound is
not in the table, so dict.get returns the absent value. -/
def default_colors_class : TopoShape L → Option PColor
  | .basic t _ _ => some (default_colors_kind (get_kind t))
  | .compound _ _ => none

/--
convert.py get_color_for_object: an explicitly supplied color wins;
otherwise the object color attribute (modelled as the objColor argument,
since only source-library wrapper objects carry a color attribute);
otherwise, when a kind was passed, the kind row of the default color
table; otherwise the class-name row of the table with the global default
as final fallback.  A supplied alpha then overrides the alpha channel of
whatever was resolved.
-/
def get_color_for_object (obj : TopoShape L) (objColor : Option PColor)
    (color : Option PColor) (alpha : Option ℚ) (kind : Option Kind) :
    PColor :=
  let col_a :=
    match color, objColor, kind with
    | some c, _, _ => Color (some c)
    | none, some oc, _ => Color (some oc)
    | none, none, some k => Color (some (default_colors_kind k))
    | none, none, none => Color (default_colors_class obj)
  match alpha with
  | some a => { col_a with a := a }
  | none => col_a

/--
C9: the resolved color of a leaf follows the priority order: explicit
per-call color, else the object color attribute, else the kind-based
default table entry, else the class-name table entry falling back to the
global default; and a supplied alpha overrides exactly the alpha channel
of whichever color was resolved.
-/
theorem claim_C9 (obj : TopoShape L) (oc c : PColor)
    (objColor color : Option PColor) (a : ℚ)
    (k : Kind) (kind : Option Kind) :
    (get_color_for_object obj objColor (some c) none kind = c) ∧
    (get_color_for_object obj (some oc) none none kind = oc) ∧
    (get_color_for_object obj none none none (some k) =
      default_colors_kind k) ∧
    (get_color_for_object obj none none none none =
      Color (default_colors_class obj)) ∧
    (get_color_for_object (L := L) (.compound [] 1) none none none none =
      default_color) ∧
    (get_color_for_object obj objColor color (some a) kind =
      { get_color_for_object obj objColor color none kind with a := a }) := by
    refine ⟨rfl, ?_, rfl, rfl, rfl, ?_⟩
    · cases kind <;> rfl
    · cases color <;> cases objColor <;> cases kind <;> rfl

/-
  ===========================================================================
  Unify (convert.py OcpConverter.unify), claim C5.
  ===========================================================================
-/

/--
convert.py OcpConverter.unify.  A single compound is unrolled: a
one-element compound collapses to its element (list_topods_compound is
the kernel adapter explode of spec section 6), a larger one stays a
compound for solid/face/shell kinds and becomes the element list for
edge/vertex kinds.  Multiple solid/face/shell elements are merged with
make_compound, multiple edge/vertex elements stay a list.  The color is
resolved for the first element; an alpha below one overrides the alpha
channel.  Solid/face/shell results go through get_instance and carry a
ref; edge/vertex results carry the geometry inline with the default
stroke width (LINE_WIDTH for edges, POINT_SIZE for vertices).  The two
error outcomes mirror Python exceptions on inputs the callers never
produce: reading the first element of an empty list (IndexError) and
asking a bare list for its Location inside get_instance
(AttributeError).
-/
def unifyPayload (objs : List (TopoShape L)) (kind : Kind) :
    TopoShape L ⊕ List (TopoShape L) :=
  match objs with
  | [o] =>
      match o with
      | .compound es _ =>
          match es with
          | [e] => .inl e
          | _ =>
              if kind = .edge ∨ kind = .vertex then .inr es else .inl o
      | _ => .inl o
  | _ =>
      if kind = .solid ∨ kind = .face ∨ kind = .shell then
        .inl (make_compound objs)
      else
        .inr objs

def unify (st : List (Entry L)) (objs : List (TopoShape L)) (kind : Kind)
    (name : String) (color : Option PColor) (alpha : ℚ) :
    Except String (OcpObject L × List (Entry L)) :=
  let ocp_obj := unifyPayload objs kind
  let colorObj : Except String (TopoShape L) :=
    match ocp_obj with
    | .inl s => .ok s
    | .inr [] => .error "IndexError: list index out of range"
    | .inr (s :: _) => .ok s
  colorObj.bind fun cobj =>
    let col0 := get_color_for_object cobj none color none (some kind)
    let col := if alpha < 1 then { col0 with a := alpha } else col0
    if kind = .solid ∨ kind = .face ∨ kind = .shell then
      match ocp_obj with
      | .inl s => .ok (get_instance st s kind name col (create_cache_id objs))
      | .inr _ => .error "AttributeError: list object has no Location"
    else
      .ok
        (⟨kind, none, some ocp_obj, name, none, some col,
            some (if kind = .edge then LINE_WIDTH else POINT_SIZE), none⟩,
          st)

theorem get_instance_obj_none (instances : List (Entry L))
    (obj : TopoShape L) (kind : Kind) (name : String) (color : PColor)
    (cid : List (TopoShape L)) :
    (get_instance instances obj kind name color cid).1.obj = none := by
  unfold get_instance
  cases scanInstances (obj.moved obj.location⁻¹) instances <;> rfl

/--
C5: every leaf produced by unify satisfies the exclusivity invariant:
solid/face/shell results carry a ref that is a valid index of the
resulting instance table (which extends the old one by a suffix,
append-only) and no inline payload; edge/vertex results carry the
geometry inline, leave the instance table untouched, and have the
default stroke width LINE_WIDTH = 2 for edges and POINT_SIZE = 4 for
vertices; no produced leaf has both a ref and an inline payload.
-/
theorem unify_ref_aux (st : List (Entry L)) (s : TopoShape L)
    (kind : Kind) (name : String) (col : PColor)
    (cid : List (TopoShape L)) (o : OcpObject L) (st2 : List (Entry L))
    (h : get_instance st s kind name col cid = (o, st2)) :
    ¬(o.ref.isSome ∧ o.obj.isSome) ∧
    ∃ r, o.ref = some r ∧ r < st2.length ∧ o.obj = none ∧
      ∃ tail, st2 = st ++ tail := by
  rcases get_instance_spec st s kind name col cid with
    ⟨r, href, hr, _, tail, happ⟩
  have hobj := get_instance_obj_none st s kind name col cid
  rw [h] at href hr happ hobj
  simp only [] at href hr happ hobj
  exact ⟨by simp [hobj], r, href, hr, hobj, tail, happ⟩

theorem claim_C5 (st : List (Entry L)) (objs : List (TopoShape L))
    (kind : Kind) (name : String) (color : Option PColor) (alpha : ℚ)
    (o : OcpObject L) (st2 : List (Entry L))
    (h : unify st objs kind name color alpha = .ok (o, st2)) :
    ¬(o.ref.isSome ∧ o.obj.isSome) ∧
    (kind = .solid ∨ kind = .face ∨ kind = .shell →
      ∃ r, o.ref = some r ∧ r < st2.length ∧ o.obj = none ∧
        ∃ tail, st2 = st ++ tail) ∧
    (kind = .edge ∨ kind = .vertex →
      o.ref = none ∧ o.obj.isSome ∧ st2 = st ∧
      o.width = some (if kind = .edge then 2 else 4)) := by
  unfold unify at h
  rcases hP : unifyPayload objs kind with s | ss <;> rw [hP] at h <;>
    cases kind <;> (try cases ss) <;> simp [Except.bind] at h
  case inl.solid =>
    rcases unify_ref_aux _ _ _ _ _ _ _ _ h with ⟨h1, h2⟩
    refine ⟨h1, fun _ => h2, fun hc => ?_⟩
    rcases hc with hc | hc <;> cases hc
  case inl.face =>
    rcases unify_ref_aux _ _ _ _ _ _ _ _ h with ⟨h1, h2⟩
    refine ⟨h1, fun _ => h2, fun hc => ?_⟩
    rcases hc with hc | hc <;> cases hc
  case inl.shell =>
    rcases unify_ref_aux _ _ _ _ _ _ _ _ h with ⟨h1, h2⟩
    refine ⟨h1, fun _ => h2, fun hc => ?_⟩
    rcases hc with hc | hc <;> cases hc
  case inl.edge =>
    obtain ⟨ho, hst⟩ := h
    subst ho
    subst hst
    refine ⟨by simp, fun hc => ?_, fun _ => ⟨rfl, by simp, rfl, ?_⟩⟩
    · rcases hc with hc | hc | hc <;> cases hc
    · simp [LINE_WIDTH]
  case inl.vertex =>
    obtain ⟨ho, hst⟩ := h
    subst ho
    subst hst
    refine ⟨by simp, fun hc => ?_, fun _ => ⟨rfl, by simp, rfl, ?_⟩⟩
    · rcases hc with hc | hc | hc <;> cases hc
    · simp [POINT_SIZE]
  case inr.edge =>
    obtain ⟨ho, hst⟩ := h
    subst ho
    subst hst
    refine ⟨by simp, fun hc => ?_, fun _ => ⟨rfl, by simp, rfl, ?_⟩⟩
    · rcases hc with hc | hc | hc <;> cases hc
    · simp [LINE_WIDTH]
  case inr.vertex =>
    obtain ⟨ho, hst⟩ := h
    subst ho
    subst hst
    refine ⟨by simp, fun hc => ?_, fun _ => ⟨rfl, by simp, rfl, ?_⟩⟩
    · rcases hc with hc | hc | hc <;> cases hc
    · simp [POINT_SIZE]

/-- Concrete input for the claim C5 witness: one solid at the identity
placement, interned into an empty instance table. -/
def c5_obj : OcpObject (Multiplicative ℤ) :=
  ⟨.solid, some 0, none, "s",
    some (1 : Multiplicative ℤ),
    some ⟨0, 0, 0, 1⟩, none,
    some [.basic .solid 0 (1 : Multiplicative ℤ)]⟩

/-- Resulting instance table for the claim C5 witness. -/
def c5_st : List (Entry (Multiplicative ℤ)) :=
  [(.basic .solid 0 (1 : Multiplicative ℤ),
    [.basic .solid 0 (1 : Multiplicative ℤ)])]

/-- Witness for claim C5 at a concrete solid input. -/
theorem claim_C5_witness :
    unify ([] : List (Entry (Multiplicative ℤ)))
        [.basic .solid 0 (1 : Multiplicative ℤ)] .solid "s"
        (some ⟨0, 0, 0, 1⟩) 1 =
      .ok (c5_obj, c5_st) ∧
    (¬(c5_obj.ref.isSome ∧ c5_obj.obj.isSome) ∧
      (Kind.solid = .solid ∨ Kind.solid = .face ∨ Kind.solid = .shell →
        ∃ r, c5_obj.ref = some r ∧ r < c5_st.length ∧ c5_obj.obj = none ∧
          ∃ tail, c5_st = [] ++ tail) ∧
      (Kind.solid = .edge ∨ Kind.solid = .vertex →
        c5_obj.ref = none ∧ c5_obj.obj.isSome ∧ c5_st = [] ∧
        c5_obj.width = some (if Kind.solid = .edge then 2 else 4))) :=
  ⟨by decide,
    claim_C5 [] [.basic .solid 0 (1 : Multiplicative ℤ)] .solid "s"
      (some ⟨0, 0, 0, 1⟩) 1 c5_obj c5_st (by decide)⟩

/-
  ===========================================================================
  Tessellation orchestrator (convert.py tessellate_group, ocp_utils.np_bbox,
  ocp_utils.bounding_box), claims C7 and C10.
  ===========================================================================
-/

/-- A translation vector, as produced by loc_to_tq. -/
abbrev Vec3 : Type := ℚ × ℚ × ℚ

/-- A rotation quaternion with components in tq order (x, y, z, w), as
produced by loc_to_tq. -/
structure Quat where
  x : ℚ
  y : ℚ
  z : ℚ
  w : ℚ
deriving DecidableEq, Repr

/-- Hamilton product (the quaternion library multiplication behind
rotate_vectors). -/
def quatMul (a b : Quat) : Quat :=
  ⟨a.w * b.x + a.x * b.w + a.y * b.z - a.z * b.y,
    a.w * b.y - a.x * b.z + a.y * b.w + a.z * b.x,
    a.w * b.z + a.x * b.y - a.y * b.x + a.z * b.w,
    a.w * b.w - a.x * b.x - a.y * b.y - a.z * b.z⟩

/-- Quaternion conjugate. -/
def quatConj (a : Quat) : Quat :=
  ⟨-a.x, -a.y, -a.z, a.w⟩

/-- rotate_vectors of the quaternion library: conjugate the pure
quaternion of the vector by the rotation quaternion (np.quaternion takes
w first, which is the component reordering np.quaternion(q[-1], *q[:-1])
in np_bbox; the Quat record already carries named components, so the
reordering is pure plumbing). -/
def rotateVec (q : Quat) (v : Vec3) : Vec3 :=
  let p : Quat := ⟨v.1, v.2.1, v.2.2, 0⟩
  let r := quatMul (quatMul q p) (quatConj q)
  (r.x, r.y, r.z)

/-- Componentwise minimum of a vertex list (np.min with axis=0), with
the first vertex as the accumulator seed. -/
def npMin (x : Vec3) (xs : List Vec3) : Vec3 :=
  xs.foldl (fun a b => (min b.1 a.1, min b.2.1 a.2.1, min b.2.2 a.2.2)) x

/-- Componentwise maximum of a vertex list (np.max with axis=0). -/
def npMax (x : Vec3) (xs : List Vec3) : Vec3 :=
  xs.foldl (fun a b => (max b.1 a.1, max b.2.1 a.2.1, max b.2.2 a.2.2)) x

/-- The extent record assembled at the end of np_bbox. -/
def npBox (x : Vec3) (xs : List Vec3) : BoundingBox :=
  ⟨(npMin x xs).1, (npMax x xs).1, (npMin x xs).2.1, (npMax x xs).2.1,
    (npMin x xs).2.2, (npMax x xs).2.2⟩

/--
ocp_utils.np_bbox: none for an empty vertex buffer; otherwise the
componentwise min/max extents of the vertices, transformed by the
rotation and translation when a placement is given (t and q are both
none exactly when the node location was none; a mixed combination would
make the numpy code raise, modelled as the error case).
-/
def np_bbox (p : List Vec3) (t : Option Vec3) (q : Option Quat) :
    Except String (Option BoundingBox) :=
  match p with
  | [] => .ok none
  | p0 :: prest =>
      match t, q with
      | none, none => .ok (some (npBox p0 prest))
      | some tv, some qv =>
          .ok (some (npBox (rotateVec qv p0 + tv)
            (prest.map (fun v => rotateVec qv v + tv))))
      | _, _ => .error "TypeError: unsupported operand"

/-- A mesh result; only the vertex buffer matters to the claims. -/
structure Mesh where
  vertices : List Vec3
deriving DecidableEq, Repr

/-- One entry of the instance list handed to tessellate_group
(the obj / cache_id dict built by to_assembly). -/
structure InstanceRec (L : Type) where
  obj : TopoShape L
  cache_id : List (TopoShape L)

/-- The raw kernel bounding-box outcome (see bounding_box_impl). -/
abbrev Raw6 : Type := ℚ × ℚ × ℚ × ℚ × ℚ × ℚ

/--
ocp_utils.bounding_box: apply the optional placement, then construct a
BoundingBox from the kernel box of the placed shape (the optimal flag
selects the exact kernel algorithm; the kernel computation itself is the
adapter parameter kernelBnd, the center of mass is com).  The LRU cache
decorating the source function is semantically transparent for a pure
adapter and is not modelled.  Only the box is returned; the diagnostics
of the void branch are dropped by this caller.
-/
def bounding_box (kernelBnd : TopoShape L → Bool → Option Raw6)
    (com : TopoShape L → Vec3) (obj : TopoShape L) (loc : Option L)
    (optimal : Bool) : BoundingBox :=
  let placed := match loc with
    | none => obj
    | some l => obj.moved l
  (bounding_box_impl (kernelBnd placed optimal) (com placed) microtol).1

/-- The flattened shapes tree walked by tessellate_group._add_bb: inner
nodes carry parts; shapes leaves carry a ref into the meshed instance
list and a location in tq form; other leaves (discretized edges and
vertices) are skipped by _add_bb. -/
inductive ShapesTree where
  | node (parts : List ShapesTree)
  | shapesLeaf (ref : ℕ) (t : Option Vec3) (q : Option Quat)
  | otherLeaf

mutual

/--
tessellate_group._add_bb: walk the shapes tree; at every shapes leaf
compute the placed bounding box of the referenced meshed instance with
np_bbox and merge it into the accumulator with BoundingBox.update (a
missing index is the Python IndexError; np_bbox returning None reaches
the update raise branch).
-/
def add_bb (meshed : List Mesh) (t : ShapesTree) (acc : BoundingBox) :
    Except String BoundingBox :=
  match t with
  | .node parts => add_bb_list meshed parts acc
  | .shapesLeaf ref tt qq =>
      match meshed[ref]? with
      | none => .error "IndexError: list index out of range"
      | some m =>
          (np_bbox m.vertices tt qq).bind fun bbd =>
            acc.update
              (match bbd with
                | some d => .dict d
                | none => .invalid)
              false
  | .otherLeaf => .ok acc

/-- The for-loop of _add_bb over the parts of a node. -/
def add_bb_list (meshed : List Mesh) (ts : List ShapesTree)
    (acc : BoundingBox) : Except String BoundingBox :=
  match ts with
  | [] => .ok acc
  | t :: rest => (add_bb meshed t acc).bind (add_bb_list meshed rest)

end

/--
convert.py tessellate_group, reduced to its two outputs that the claims
concern: the meshed instance list and the overall bounding box.  For
each instance, in table order, a rough non-optimal bounding box of the
instance shape (loc=None) drives compute_quality (tessellator module,
kept as the parameter compute_quality together with the mesher tess);
the mesh is appended in order.  After the loop _add_bb folds the placed
per-leaf boxes of the collected shapes tree into the overall box, which
starts as the zero box of the BoundingBox() constructor.  The collected
tree (group.collect of the scene-node module) is taken as the shapes
argument.
-/
def tessellate_group (instances : List (InstanceRec L))
    (shapes : ShapesTree) (kernelBnd : TopoShape L → Bool → Option Raw6)
    (com : TopoShape L → Vec3) (compute_quality : BoundingBox → ℚ → ℚ)
    (tess : TopoShape L → List (TopoShape L) → ℚ → ℚ → ℚ → Bool → Mesh)
    (deviation angular_tolerance : ℚ) (render_edges : Bool) :
    List Mesh × Except String BoundingBox :=
  let meshed_instances := instances.map fun inst =>
    tess inst.obj inst.cache_id deviation
      (compute_quality (bounding_box kernelBnd com inst.obj none false)
        deviation)
      angular_tolerance render_edges
  (meshed_instances, add_bb meshed_instances shapes ⟨0, 0, 0, 0, 0, 0⟩)

/--
C7: tessellate_group computes exactly one mesh per instance-table entry,
in table order, index-aligned with the table; each mesh is produced from
the instance shape with a quality derived from the non-exact (optimal =
false) bounding box of the local-frame shape (loc = none) scaled by the
deviation setting, and the meshed list does not depend on the shapes
tree (hence not on any placement stored in it).
-/
theorem claim_C7 (instances : List (InstanceRec L)) (shapes : ShapesTree)
    (kernelBnd : TopoShape L → Bool → Option Raw6)
    (com : TopoShape L → Vec3) (compute_quality : BoundingBox → ℚ → ℚ)
    (tess : TopoShape L → List (TopoShape L) → ℚ → ℚ → ℚ → Bool → Mesh)
    (deviation angular_tolerance : ℚ) (render_edges : Bool) :
    ((tessellate_group instances shapes kernelBnd com compute_quality tess
        deviation angular_tolerance render_edges).1.length =
      instances.length) ∧
    (∀ i, i < instances.length →
      (tessellate_group instances shapes kernelBnd com compute_quality tess
          deviation angular_tolerance render_edges).1[i]? =
        (instances[i]?).map fun inst =>
          tess inst.obj inst.cache_id deviation
            (compute_quality
              (bounding_box kernelBnd com inst.obj none false) deviation)
            angular_tolerance render_edges) ∧
    (∀ shapes2 : ShapesTree,
      (tessellate_group instances shapes2 kernelBnd com compute_quality tess
          deviation angular_tolerance render_edges).1 =
      (tessellate_group instances shapes kernelBnd com compute_quality tess
          deviation angular_tolerance render_edges).1) := by
  refine ⟨by simp [tessellate_group], fun i hi => ?_, fun shapes2 => rfl⟩
  simp [tessellate_group, List.getElem?_map]

/-- Witness for claim C7: two copies of the same solid produce two
meshes aligned with the two table entries. -/
theorem claim_C7_witness :
    ((tessellate_group (L := Multiplicative ℤ)
        [⟨.basic .solid 0 1, []⟩, ⟨.basic .solid 1 1, []⟩] (.node [])
        (fun _ _ => none) (fun _ => (0, 0, 0)) (fun _ d => d)
        (fun _ _ _ _ _ _ => ⟨[]⟩) 1 1 false).1.length = 2) ∧
    ((tessellate_group (L := Multiplicative ℤ)
        [⟨.basic .solid 0 1, []⟩, ⟨.basic .solid 1 1, []⟩] (.node [])
        (fun _ _ => none) (fun _ => (0, 0, 0)) (fun _ d => d)
        (fun _ _ _ _ _ _ => ⟨[]⟩) 1 1 false).1[0]? = some ⟨[]⟩) := by
  have h := claim_C7 (L := Multiplicative ℤ)
    [⟨.basic .solid 0 1, []⟩, ⟨.basic .solid 1 1, []⟩] (.node [])
    (fun _ _ => none) (fun _ => (0, 0, 0)) (fun _ d => d)
    (fun _ _ _ _ _ _ => ⟨[]⟩) 1 1 false
  refine ⟨by rw [h.1]; rfl, ?_⟩
  rw [h.2.1 0 (by decide)]
  rfl

theorem npMin_proj (xs : List Vec3) : ∀ x : Vec3,
    npMin x xs =
      ((xs.map (fun v => v.1)).foldl (fun acc y => min y acc) x.1,
        (xs.map (fun v => v.2.1)).foldl (fun acc y => min y acc) x.2.1,
        (xs.map (fun v => v.2.2)).foldl (fun acc y => min y acc) x.2.2) := by
  induction xs with
  | nil => intro x; rfl
  | cons a as ih =>
      intro x
      simp only [npMin, List.foldl_cons, List.map_cons] at *
      exact ih (min a.1 x.1, min a.2.1 x.2.1, min a.2.2 x.2.2)

theorem npMax_proj (xs : List Vec3) : ∀ x : Vec3,
    npMax x xs =
      ((xs.map (fun v => v.1)).foldl (fun acc y => max y acc) x.1,
        (xs.map (fun v => v.2.1)).foldl (fun acc y => max y acc) x.2.1,
        (xs.map (fun v => v.2.2)).foldl (fun acc y => max y acc) x.2.2) := by
  induction xs with
  | nil => intro x; rfl
  | cons a as ih =>
      intro x
      simp only [npMax, List.foldl_cons, List.map_cons] at *
      exact ih (max a.1 x.1, max a.2.1 x.2.1, max a.2.2 x.2.2)

/-- The extent record b is the exact componentwise hull of the vertex
list: it bounds every vertex and every extent is attained. -/
def boxIsHullOf (b : BoundingBox) (v0 : Vec3) (vs : List Vec3) : Prop :=
  (∀ v ∈ v0 :: vs,
    b.xmin ≤ v.1 ∧ v.1 ≤ b.xmax ∧ b.ymin ≤ v.2.1 ∧ v.2.1 ≤ b.ymax ∧
    b.zmin ≤ v.2.2 ∧ v.2.2 ≤ b.zmax) ∧
  b.xmin ∈ (v0 :: vs).map (fun v => v.1) ∧
  b.xmax ∈ (v0 :: vs).map (fun v => v.1) ∧
  b.ymin ∈ (v0 :: vs).map (fun v => v.2.1) ∧
  b.ymax ∈ (v0 :: vs).map (fun v => v.2.1) ∧
  b.zmin ∈ (v0 :: vs).map (fun v => v.2.2) ∧
  b.zmax ∈ (v0 :: vs).map (fun v => v.2.2)

theorem npBox_isHull (x : Vec3) (xs : List Vec3) :
    boxIsHullOf (npBox x xs) x xs := by
  have h1 := foldl_min_mem x.1 (xs.map (fun v => v.1))
  have h2 := foldl_max_mem x.1 (xs.map (fun v => v.1))
  have h3 := foldl_min_mem x.2.1 (xs.map (fun v => v.2.1))
  have h4 := foldl_max_mem x.2.1 (xs.map (fun v => v.2.1))
  have h5 := foldl_min_mem x.2.2 (xs.map (fun v => v.2.2))
  have h6 := foldl_max_mem x.2.2 (xs.map (fun v => v.2.2))
  constructor
  · intro v hv
    have m1 : v.1 ∈ x.1 :: xs.map (fun v => v.1) := by
      rcases List.mem_cons.mp hv with hv | hv
      · subst hv; exact List.mem_cons_self _ _
      · exact List.mem_cons_of_mem _ (List.mem_map_of_mem _ hv)
    have m2 : v.2.1 ∈ x.2.1 :: xs.map (fun v => v.2.1) := by
      rcases List.mem_cons.mp hv with hv | hv
      · subst hv; exact List.mem_cons_self _ _
      · exact List.mem_cons_of_mem _ (List.mem_map_of_mem _ hv)
    have m3 : v.2.2 ∈ x.2.2 :: xs.map (fun v => v.2.2) := by
      rcases List.mem_cons.mp hv with hv | hv
      · subst hv; exact List.mem_cons_self _ _
      · exact List.mem_cons_of_mem _ (List.mem_map_of_mem _ hv)
    refine ⟨?_, ?_, ?_, ?_, ?_, ?_⟩ <;>
      simp only [npBox, npMin_proj, npMax_proj]
    · exact h1.1 v.1 m1
    · exact h2.1 v.1 m1
    · exact h3.1 v.2.1 m2
    · exact h4.1 v.2.1 m2
    · exact h5.1 v.2.2 m3
    · exact h6.1 v.2.2 m3
  · refine ⟨?_, ?_, ?_, ?_, ?_, ?_⟩ <;>
      simp only [npBox, npMin_proj, npMax_proj, List.map_cons]
    · exact h1.2
    · exact h2.2
    · exact h3.2
    · exact h4.2
    · exact h5.2
    · exact h6.2

mutual

/-- Wellformedness of a shapes tree against the meshed instance list:
every shapes leaf references an existing meshed instance whose vertex
buffer is non-empty, and carries translation and quaternion together. -/
def leaves_ok (meshed : List Mesh) : ShapesTree → Bool
  | .node parts => leaves_ok_list meshed parts
  | .shapesLeaf ref t q =>
      match meshed[ref]? with
      | none => false
      | some m => (decide (m.vertices ≠ [])) && (t.isSome == q.isSome)
  | .otherLeaf => true

/-- leaves_ok over a part list. -/
def leaves_ok_list (meshed : List Mesh) : List ShapesTree → Bool
  | [] => true
  | t :: ts => leaves_ok meshed t && leaves_ok_list meshed ts

end

mutual

theorem add_bb_ok (meshed : List Mesh) :
    (t : ShapesTree) → (acc : BoundingBox) →
      leaves_ok meshed t = true → ∃ b, add_bb meshed t acc = .ok b
  | .node parts, acc, h =>
      add_bb_list_ok meshed parts acc (by simpa [leaves_ok] using h)
  | .shapesLeaf ref tt qq, acc, h => by
      simp only [leaves_ok] at h
      rcases hm : meshed[ref]? with _ | m
      · rw [hm] at h; cases h
      · rw [hm] at h
        simp only [Bool.and_eq_true, decide_eq_true_eq, beq_iff_eq] at h
        rcases hv : m.vertices with _ | ⟨v0, vrest⟩
        · exact absurd hv h.1
        · rcases tt with _ | tv <;> rcases qq with _ | qv
          · exact ⟨_, by
              simp only [add_bb, hm, hv, np_bbox, Except.bind,
                BoundingBox.update]
              rfl⟩
          · simp [Option.isSome] at h
          · simp [Option.isSome] at h
          · exact ⟨_, by
              simp only [add_bb, hm, hv, np_bbox, Except.bind,
                BoundingBox.update]
              rfl⟩
  | .otherLeaf, acc, _ => ⟨acc, rfl⟩

theorem add_bb_list_ok (meshed : List Mesh) :
    (ts : List ShapesTree) → (acc : BoundingBox) →
      leaves_ok_list meshed ts = true →
      ∃ b, add_bb_list meshed ts acc = .ok b
  | [], acc, _ => ⟨acc, rfl⟩
  | t :: ts, acc, h => by
      simp only [leaves_ok_list, Bool.and_eq_true] at h
      rcases add_bb_ok meshed t acc h.1 with ⟨b1, hb1⟩
      rcases add_bb_list_ok meshed ts b1 h.2 with ⟨b2, hb2⟩
      exact ⟨b2, by simp [add_bb_list, hb1, Except.bind, hb2]⟩

end

/--
C10: np_bbox returns None exactly when the vertex buffer is empty
(given that translation and rotation are supplied together, as the tree
builder guarantees); on a non-empty buffer it returns the exact
componentwise min/max hull of the vertices after applying the rotation
and translation (or of the raw vertices when no placement is given).
When every shapes leaf references a meshed instance with a non-empty
vertex buffer, the _add_bb fold never reaches the invalid-parameter
raise branch of BoundingBox.update; a leaf whose meshed instance has an
empty vertex buffer makes np_bbox hand None to update, whose raise
branch is then reached.
-/
theorem claim_C10 (p : List Vec3) (t : Option Vec3) (q : Option Quat)
    (x tv : Vec3) (xs : List Vec3) (qv : Quat) (meshed : List Mesh)
    (tree : ShapesTree) (acc acc2 : BoundingBox) (r : ℕ) (m : Mesh)
    (tL : Option Vec3) (qL : Option Quat)
    (hpair : (t = none ∧ q = none) ∨ (t.isSome ∧ q.isSome)) :
    (np_bbox p t q = .ok none ↔ p = []) ∧
    (np_bbox (x :: xs) none none = .ok (some (npBox x xs)) ∧
      boxIsHullOf (npBox x xs) x xs) ∧
    (np_bbox (x :: xs) (some tv) (some qv) =
        .ok (some (npBox (rotateVec qv x + tv)
          (xs.map (fun v => rotateVec qv v + tv)))) ∧
      boxIsHullOf
        (npBox (rotateVec qv x + tv)
          (xs.map (fun v => rotateVec qv v + tv)))
        (rotateVec qv x + tv) (xs.map (fun v => rotateVec qv v + tv))) ∧
    (leaves_ok meshed tree = true →
      ∃ b, add_bb meshed tree acc = .ok b) ∧
    (meshed[r]? = some m → m.vertices = [] →
      add_bb meshed (.node [.shapesLeaf r tL qL]) acc2 =
        .error "Wrong bounding box param") := by
  refine ⟨?_, ⟨rfl, npBox_isHull x xs⟩, ⟨rfl, npBox_isHull _ _⟩,
    add_bb_ok meshed tree acc, fun hm hv => ?_⟩
  · constructor
    · intro h
      rcases p with _ | ⟨p0, ps⟩
      · rfl
      · rcases hpair with ⟨ht, hq⟩ | ⟨ht, hq⟩
        · subst ht; subst hq; simp [np_bbox] at h
        · rcases Option.isSome_iff_exists.mp ht with ⟨tv2, rfl⟩
          rcases Option.isSome_iff_exists.mp hq with ⟨qv2, rfl⟩
          simp [np_bbox] at h
    · intro h
      subst h
      rfl
  · simp [add_bb, add_bb_list, hm, hv, np_bbox, Except.bind,
      BoundingBox.update]

/-- Witness for claim C10: an empty vertex buffer yields None from
np_bbox, and a shapes leaf referencing an empty-buffer mesh drives the
fold into the update raise branch. -/
theorem claim_C10_witness :
    (np_bbox ([] : List Vec3) none none = .ok none) ∧
    (add_bb [⟨[((0 : ℚ), (0 : ℚ), (0 : ℚ))]⟩, ⟨[]⟩]
        (.node [.shapesLeaf 1 none none]) ⟨0, 0, 0, 0, 0, 0⟩ =
      .error "Wrong bounding box param") := by
  have h := claim_C10 ([] : List Vec3) none none (0, 0, 0) (0, 0, 0) []
    ⟨0, 0, 0, 1⟩ [⟨[((0 : ℚ), (0 : ℚ), (0 : ℚ))]⟩, ⟨[]⟩]
    (.node [.shapesLeaf 0 none none]) ⟨0, 0, 0, 0, 0, 0⟩
    ⟨0, 0, 0, 0, 0, 0⟩ 1 ⟨[]⟩ none none (Or.inl ⟨rfl, rfl⟩)
  exact ⟨h.1.mpr rfl, h.2.2.2.2 rfl rfl⟩

/-
  ===========================================================================
  Dispatch / conversion engine (convert.py OcpConverter.to_ocp and its
  handlers), claims C2, C6 and C8.
  ===========================================================================
-/

/--
The modelled universe of converter inputs, one constructor per
capability class that the claims exercise, in the vocabulary of the
dispatch chain of to_ocp: enum values, OCP color values, scalar values
(int/float/bool/str/numpy data), values recognized by no capability
test, generic lists/tuples, dicts, build123d assemblies (a label, an own
placement and children), and bare shapes (with the optional color
attribute that source-library wrappers carry).
-/
inductive CadValue (L : Type) where
  | enumV (n : ℕ)
  | colorV (c : PColor)
  | scalarV (s : String)
  | unrecV (typeName : String)
  | listV (xs : List (CadValue L))
  | dictV (es : List (String × CadValue L))
  | assemblyV (label : String) (loc : L) (children : List (CadValue L))
  | shapeV (s : TopoShape L) (colorAttr : Option PColor)

/-- A scene node (cad_objects OcpGroup / OcpObject, reduced to the node
shape the claims need): a leaf holding an OcpObject, or a group with a
name, an optional location and ordered children. -/
inductive OcpNode (L : Type) where
  | leaf (o : OcpObject L)
  | group (name : String) (loc : Option L) (objects : List (OcpNode L))

/-- The name of a scene node (group name or leaf object name). -/
def nodeName : OcpNode L → String
  | .leaf o => o.name
  | .group n _ _ => n

/-- Rename a scene node. -/
def withName (nn : String) : OcpNode L → OcpNode L
  | .leaf o => .leaf { o with name := nn }
  | .group _ l objs => .group nn l objs

/-- Modelled from the spec: utils.make_unique, the sibling-name
uniquification pass (spec section 4.3): the first occurrence of a name
stays unsuffixed, the k-th repetition gets the numeric suffix _k, in
encounter order. -/
def make_unique_aux (seen : List String) : List String → List String
  | [] => []
  | n :: rest =>
      let k := seen.count n
      (if k = 0 then n else n ++ "_" ++ toString k) ::
        make_unique_aux (n :: seen) rest

/-- Modelled from the spec: utils.make_unique over a sibling name
list. -/
def make_unique (ns : List String) : List String :=
  make_unique_aux [] ns

/-- Modelled from the spec: OcpGroup.make_unique_names (spec section
4.3) walks the direct children once and applies the uniquification pass
to their names; leaves are unchanged. -/
def make_unique_names : OcpNode L → OcpNode L
  | .group n l objs =>
      .group n l ((objs.zip (make_unique (objs.map nodeName))).map
        fun p => withName p.2 p.1)
  | x => x

/-- Modelled from the spec: OcpGroup.cleanup (spec section 4.3)
collapses a group holding exactly one group child into that child,
recursively at the top, and leaves everything else unchanged. -/
def cleanup : OcpNode L → OcpNode L
  | .group n l objs =>
      match objs with
      | [OcpNode.group n2 l2 objs2] => cleanup (.group n2 l2 objs2)
      | _ => .group n l objs
  | x => x

/-- The object color attribute consulted by the prepare step of the
to_ocp loop (hasattr color); only shape wrappers carry one among the
modelled variants. -/
def cadColorAttr : CadValue L → Option PColor
  | .shapeV _ c => c
  | _ => none

/-- The prepare step of the to_ocp loop: an explicitly passed color
stays (the get_rgba re-coercion of the source is the identity on typed
colors), else the object color attribute is consulted. -/
def prepare_color (c0 : Option PColor) (o : CadValue L) : Option PColor :=
  match c0 with
  | some c => some c
  | none => cadColorAttr o

/-- The label attribute consulted by convert.py get_name (name/label,
skipped when empty); among the modelled variants only assemblies carry
one. -/
def cadLabel : CadValue L → Option String
  | .assemblyV label _ _ => if label = "" then none else some label
  | _ => none

/-- convert.py get_name: an explicit name wins, else the non-empty
name/label attribute, else the default. -/
def get_name (obj : CadValue L) (name : Option String) (default : String) :
    String :=
  match name with
  | some n => n
  | none => (cadLabel obj).getD default

/-- The class-name string of a shape type (convert.py get_type
vocabulary without the TopoDS_ markup). -/
def shapeTypeName : ShapeType → String
  | .vertex => "Vertex"
  | .edge => "Edge"
  | .face => "Face"
  | .shell => "Shell"
  | .solid => "Solid"

mutual

/-- Modelled from the spec: the compound-kind resolution behind
get_compound_type (spec section 4.4, case 9: compound content resolved
to a single renderable kind), taken here as the type of the first basic
constituent. -/
def firstShapeType : TopoShape L → Option ShapeType
  | .basic t _ _ => some t
  | .compound es _ => firstShapeTypeList es

/-- firstShapeType over a constituent list. -/
def firstShapeTypeList : List (TopoShape L) → Option ShapeType
  | [] => none
  | s :: rest =>
      match firstShapeType s with
      | some t => some t
      | none => firstShapeTypeList rest

end

/-- Modelled from the spec: ocp_utils type_name, the class-name string
used for default child names (a naming helper outside the covered
sources). -/
def type_name : CadValue L → String
  | .enumV _ => "Enum"
  | .colorV _ => "Color"
  | .scalarV s => s
  | .unrecV t => t
  | .listV _ => "List"
  | .dictV _ => "Dict"
  | .assemblyV _ _ _ => "Compound"
  | .shapeV s _ =>
      match s with
      | .basic t _ _ => shapeTypeName t
      | .compound _ _ => "Compound"

/--
convert.py OcpConverter.handle_shapes, restricted to the modelled shape
repertoire (wires are pre-exploded, see ShapeType): the type is the
basic type, or the resolved content type for a compound; the shape is
then unified under get_kind of that type, with the default name taken
from the type name.
-/
def handle_shapes (st : List (Entry L)) (s : TopoShape L)
    (obj_name : Option String) (rgba : Option PColor) :
    Except String (OcpObject L × List (Entry L)) :=
  let typ : ShapeType :=
    match s with
    | .basic t _ _ => t
    | .compound es _ => (firstShapeTypeList es).getD .solid
  unify st [s] (get_kind typ) (obj_name.getD (shapeTypeName typ)) rgba 1

/-- The diagnostic line printed by the skip filter of to_ocp for a
value that matches no capability predicate. -/
def skip_message (obj_name : Option String) (t : String) : String :=
  "Skipping object" ++
    (match obj_name with
      | none => ""
      | some nm => " " ++ nm) ++
    " of type " ++ t

theorem list_sizeOf_pos {a : Type} [SizeOf a] (l : List a) :
    1 ≤ sizeOf l := by
  cases l <;> simp_arith

/-- ocp_utils.get_rgba: resolve a color value and an optional alpha to
an RGBA record; the absent color resolves to the global default color,
an absent alpha keeps the alpha of the resolved color. -/
def get_rgba (color : Option PColor) (alpha : Option ℚ) : PColor :=
  let c := color.getD default_color
  match alpha with
  | none => c
  | some a => { c with a := a }

/-- The epilogue of to_ocp: wrap the produced children in the group
carrying the call location (OcpGroup(loc=loc) with the identity as the
default), uniquify sibling names, and collapse the group when it holds a
single nested group (the final make_unique_names / cleanup step of
to_ocp). -/
def finalize_group (loc : Option L) (children : List (OcpNode L)) :
    OcpNode L :=
  let g := make_unique_names (.group "" (some (loc.getD 1)) children)
  match g with
  | .group nm lv [OcpNode.group a b c] =>
      cleanup (.group nm lv [OcpNode.group a b c])
  | other => other

/-- The result triple of a converter step: the instance table (the
converter state self.instances), the emitted skip diagnostics, and the
produced value or the raised exception. -/
abbrev ConvResult (L : Type) (a : Type) : Type :=
  List (Entry L) × List String × Except String a

mutual

/--
convert.py OcpConverter.to_ocp.  Validation first: a supplied names list
must match the object count (then it passes through make_unique), a
supplied (or defaulted) alphas list must match, a supplied colors list
must match (then each entry is resolved with get_rgba against the
aligned alpha).  Then the loop over the zipped objects dispatches each
value; afterwards the group gets make_unique_names and, when it holds a
single group child, cleanup.  The loc argument defaults to the identity
location.  The render_mates/render_joints/default_color/show_parent/
sketch_local/unroll_compounds/cache_id/top_level/level parameters are
dropped: none of them is read by the modelled variants (top_level is
never read at all in the source body).
-/
def to_ocp (st : List (Entry L)) (objs : List (CadValue L))
    (names : Option (List String)) (colors : Option (List (Option PColor)))
    (alphas : Option (List (Option ℚ))) (loc : Option L)
    (helper_scale : ℚ) : ConvResult L (OcpNode L) :=
  let n := objs.length
  let namesR : Except String (List (Option String)) :=
    match names with
    | none => .ok (List.replicate n none)
    | some ns =>
        if ns.length ≠ n then
          .error "Length of names does not match the number of objects"
        else .ok ((make_unique ns).map some)
  match namesR with
  | .error e => (st, [], .error e)
  | .ok names2 =>
      let alphas2 := match alphas with
        | none => List.replicate n none
        | some as2 => as2
      if alphas2.length ≠ n then
        (st, [], .error "Length of alphas does not match the number of objects")
      else
        let colorsR : Except String (List (Option PColor)) :=
          match colors with
          | none => .ok (List.replicate n none)
          | some cs =>
              if cs.length ≠ n then
                .error "Length of colors does not match the number of objects"
              else .ok ((cs.zip alphas2).map fun p => some (get_rgba p.1 p.2))
        match colorsR with
        | .error e => (st, [], .error e)
        | .ok colors2 =>
            match to_ocp_loop st objs names2 colors2 helper_scale with
            | (st2, log2, .error e) => (st2, log2, .error e)
            | (st2, log2, .ok children) =>
                (st2, log2, .ok (finalize_group loc children))
termination_by 4 * sizeOf objs + 2
decreasing_by all_goals simp_wf <;> omega

/--
The loop of to_ocp over zip(cad_objs, names, colors): enums, colors and
scalars are skipped silently; a value recognized by no capability
predicate is skipped with the diagnostic naming its slot and type; any
other value has its color prepared (explicit color, else the object
color attribute) and is dispatched; the produced node is appended to the
group, and an exception unwinds the whole loop.
-/
def to_ocp_loop (st : List (Entry L)) (objs : List (CadValue L))
    (names2 : List (Option String)) (colors2 : List (Option PColor))
    (helper_scale : ℚ) : ConvResult L (List (OcpNode L)) :=
  match objs, names2, colors2 with
  | [], _, _ => (st, [], .ok [])
  | _ :: _, [], _ => (st, [], .ok [])
  | _ :: _, _ :: _, [] => (st, [], .ok [])
  | o :: os, n0 :: ns, c0 :: cs =>
      match o with
      | .enumV _ => to_ocp_loop st os ns cs helper_scale
      | .colorV _ => to_ocp_loop st os ns cs helper_scale
      | .scalarV _ => to_ocp_loop st os ns cs helper_scale
      | .unrecV t =>
          match to_ocp_loop st os ns cs helper_scale with
          | (st2, log2, res2) => (st2, skip_message n0 t :: log2, res2)
      | other =>
          match handle_one st other n0 (prepare_color c0 other)
              helper_scale with
          | (st2, log2, .error e) => (st2, log2, .error e)
          | (st2, log2, .ok node) =>
              match to_ocp_loop st2 os ns cs helper_scale with
              | (st3, log3, .error e) => (st3, log2 ++ log3, .error e)
              | (st3, log3, .ok rest) =>
                  (st3, log2 ++ log3, .ok (node :: rest))
termination_by 4 * sizeOf objs + 1
decreasing_by
  all_goals simp_wf
  all_goals try omega
  all_goals (have h1 := list_sizeOf_pos os; omega)

/--
The dispatch chain of to_ocp for one recognized value, in source order:
generic lists/tuples, dicts, assemblies, bare shapes.  The assembly
branch reproduces the source defect at convert.py lines 704-710: the
first of the two stacked calls passes five positional arguments to the
six-parameter method handle_build123d_assembly (sketch_local lands in
the helper_scale slot, level in the sketch_local slot, and level is
missing), so Python raises TypeError before the handler body ever runs,
for every assembly input.
-/
def handle_one (st : List (Entry L)) (o : CadValue L)
    (n0 : Option String) (rgba : Option PColor) (helper_scale : ℚ) :
    ConvResult L (OcpNode L) :=
  match o with
  | .listV xs => handle_list_tuple st xs n0 rgba helper_scale
  | .dictV es => handle_dict st es n0 rgba helper_scale
  | .assemblyV _ _ _ =>
      (st, [],
        .error "TypeError: handle_build123d_assembly missing 1 required positional argument: level")
  | .shapeV s _ =>
      match handle_shapes st s n0 rgba with
      | .error e => (st, [], .error e)
      | .ok (obj, st2) => (st2, [], .ok (.leaf obj))
  | _ => (st, [], .error "Unknown object type")
termination_by 4 * sizeOf o + 5
decreasing_by all_goals simp_wf <;> omega

/--
convert.py OcpConverter.handle_list_tuple: convert every element
recursively (each under its own name slot and the shared color), adding
each cleaned result to a synthesized group named List (or the caller
name), then uniquify the sibling names and clean up the group.
-/
def handle_list_tuple (st : List (Entry L)) (xs : List (CadValue L))
    (obj_name : Option String) (rgba : Option PColor)
    (helper_scale : ℚ) : ConvResult L (OcpNode L) :=
  match handle_list_items st xs obj_name rgba helper_scale with
  | (st2, log2, .error e) => (st2, log2, .error e)
  | (st2, log2, .ok children) =>
      (st2, log2,
        .ok (cleanup (make_unique_names
          (.group (obj_name.getD "List") none children))))
termination_by 4 * sizeOf xs + 4
decreasing_by all_goals simp_wf <;> omega

/-- The element loop of handle_list_tuple. -/
def handle_list_items (st : List (Entry L)) (xs : List (CadValue L))
    (obj_name : Option String) (rgba : Option PColor)
    (helper_scale : ℚ) : ConvResult L (List (OcpNode L)) :=
  match xs with
  | [] => (st, [], .ok [])
  | x :: rest =>
      match to_ocp st [x] (some [obj_name.getD (type_name x)])
          (some [rgba]) none none helper_scale with
      | (st2, log2, .error e) => (st2, log2, .error e)
      | (st2, log2, .ok node) =>
          match handle_list_items st2 rest obj_name rgba helper_scale with
          | (st3, log3, .error e) => (st3, log2 ++ log3, .error e)
          | (st3, log3, .ok ch) =>
              (st3, log2 ++ log3, .ok (cleanup node :: ch))
termination_by 4 * sizeOf xs + 3
decreasing_by
  all_goals simp_wf
  all_goals try omega
  all_goals (have h1 := list_sizeOf_pos rest; omega)

/--
convert.py OcpConverter.handle_dict: convert every entry value
recursively under the entry key as its name, adding each cleaned result
to a synthesized group named Dict (or the caller name); the group is
returned without a uniquification pass.
-/
def handle_dict (st : List (Entry L)) (es : List (String × CadValue L))
    (obj_name : Option String) (rgba : Option PColor)
    (helper_scale : ℚ) : ConvResult L (OcpNode L) :=
  match handle_dict_items st es rgba helper_scale with
  | (st2, log2, .error e) => (st2, log2, .error e)
  | (st2, log2, .ok children) =>
      (st2, log2, .ok (.group (obj_name.getD "Dict") none children))
termination_by 4 * sizeOf es + 4
decreasing_by all_goals simp_wf <;> omega

/-- The entry loop of handle_dict. -/
def handle_dict_items (st : List (Entry L))
    (es : List (String × CadValue L)) (rgba : Option PColor)
    (helper_scale : ℚ) : ConvResult L (List (OcpNode L)) :=
  match es with
  | [] => (st, [], .ok [])
  | (k, v) :: rest =>
      match to_ocp st [v] (some [k]) (some [rgba]) none none
          helper_scale with
      | (st2, log2, .error e) => (st2, log2, .error e)
      | (st2, log2, .ok node) =>
          match handle_dict_items st2 rest rgba helper_scale with
          | (st3, log3, .error e) => (st3, log2 ++ log3, .error e)
          | (st3, log3, .ok ch) =>
              (st3, log2 ++ log3, .ok (cleanup node :: ch))
termination_by 4 * sizeOf es + 3
decreasing_by all_goals simp_wf <;> omega

end

/--
C2: when a supplied names, colors, or alphas list disagrees in length
with the object list, to_ocp raises the arity error eagerly: the result
is the corresponding error with the instance table returned unchanged
and no diagnostics, for every object list whatsoever, so no value was
classified, nothing was interned, and no geometry was touched.  The
names check runs first, then alphas, then colors, mirroring the source
order.
-/
theorem claim_C2 (st : List (Entry L)) (objs : List (CadValue L))
    (ns : List String) (cs : List (Option PColor))
    (as2 : List (Option ℚ)) (colors : Option (List (Option PColor)))
    (alphas : Option (List (Option ℚ))) (names : Option (List String))
    (loc : Option L) (hs : ℚ) :
    (ns.length ≠ objs.length →
      to_ocp st objs (some ns) colors alphas loc hs =
        (st, [], .error "Length of names does not match the number of objects")) ∧
    (names = none ∨ (names = some ns ∧ ns.length = objs.length) →
      as2.length ≠ objs.length →
      to_ocp st objs names colors (some as2) loc hs =
        (st, [], .error "Length of alphas does not match the number of objects")) ∧
    (names = none ∨ (names = some ns ∧ ns.length = objs.length) →
      (alphas = none ∨ (alphas = some as2 ∧ as2.length = objs.length)) →
      cs.length ≠ objs.length →
      to_ocp st objs names (some cs) alphas loc hs =
        (st, [], .error "Length of colors does not match the number of objects")) := by
  refine ⟨fun h => ?_, fun hn h => ?_, fun hn ha h => ?_⟩
  · unfold to_ocp
    simp [h]
  · rcases hn with hn | ⟨hn, hlen⟩
    · subst hn
      unfold to_ocp
      simp [h]
    · subst hn
      unfold to_ocp
      simp [h, hlen]
  · rcases hn with hn | ⟨hn, hlen⟩
    · subst hn
      rcases ha with ha | ⟨ha, halen⟩
      · subst ha
        unfold to_ocp
        simp [h]
      · subst ha
        unfold to_ocp
        simp [h, halen]
    · subst hn
      rcases ha with ha | ⟨ha, halen⟩
      · subst ha
        unfold to_ocp
        simp [h, hlen]
      · subst ha
        unfold to_ocp
        simp [h, hlen, halen]

/-- Witness for claim C2: three objects with two names fail eagerly,
leaving the (empty) instance table untouched. -/
theorem claim_C2_witness :
    to_ocp ([] : List (Entry (Multiplicative ℤ)))
        [.scalarV "1", .scalarV "2", .scalarV "3"] (some ["a", "b"])
        none none none 1 =
      ([], [], .error "Length of names does not match the number of objects") :=
  (claim_C2 ([] : List (Entry (Multiplicative ℤ)))
      [.scalarV "1", .scalarV "2", .scalarV "3"] ["a", "b"] [] [] none none
      none none 1).1 (by decide)

/--
C6 (code defect evaluation): for every build123d assembly input, the
dispatch of to_ocp raises TypeError instead of converting it: the first
of the two stacked handler calls at convert.py lines 704-710 passes five
positional arguments to the six-parameter handle_build123d_assembly
(sketch_local binds to helper_scale, level to sketch_local, and level is
missing), so the handler body - including its single-child collapse and
placement composition - is never reached, the conversion unwinds, and
the instance table is left unchanged.
-/
theorem claim_C6 (st : List (Entry L)) (lbl : String) (lv : L)
    (ch : List (CadValue L)) (hs : ℚ) :
    to_ocp st [.assemblyV lbl lv ch] none none none none hs =
      (st, [],
        .error "TypeError: handle_build123d_assembly missing 1 required positional argument: level") := by
  unfold to_ocp
  simp [to_ocp_loop, handle_one]

theorem make_unique_aux_id (ns : List String) : ∀ seen : List String,
    ns.Nodup → (∀ x ∈ ns, x ∉ seen) → make_unique_aux seen ns = ns := by
  induction ns with
  | nil => intro seen _ _; rfl
  | cons n rest ih =>
      intro seen hnd hout
      have hcount : seen.count n = 0 :=
        List.count_eq_zero.mpr (hout n (List.mem_cons_self n rest))
      have hrest : make_unique_aux (n :: seen) rest = rest := by
        apply ih
        · exact List.Nodup.of_cons hnd
        · intro x hx hmem
          rcases List.mem_cons.mp hmem with hc | hc
          · subst hc
            exact (List.nodup_cons.mp hnd).1 hx
          · exact hout x (List.mem_cons_of_mem n hx) hc
      simp [make_unique_aux, hcount, hrest]

theorem make_unique_id (ns : List String) (h : ns.Nodup) :
    make_unique ns = ns :=
  make_unique_aux_id ns [] h (by simp)

/-- Dropping a filter-skipped value: inserting a value recognized by no
capability predicate anywhere into the object list leaves the produced
children, the final instance table and every sibling conversion
untouched, and only inserts the skip diagnostic into the log at the
corresponding position. -/
theorem loop_skip_unrec (t : String) (hs : ℚ) :
    ∀ (xs : List (CadValue L)) (nxs : List (Option String))
      (cxs : List (Option PColor)) (ys : List (CadValue L))
      (nys : List (Option String)) (cys : List (Option PColor))
      (nm : Option String) (c0 : Option PColor) (st st2 : List (Entry L))
      (log : List String) (ch : List (OcpNode L)),
      nxs.length = xs.length → cxs.length = xs.length →
      to_ocp_loop st (xs ++ ys) (nxs ++ nys) (cxs ++ cys) hs =
        (st2, log, .ok ch) →
      ∃ l1 l2, log = l1 ++ l2 ∧
        to_ocp_loop st (xs ++ .unrecV t :: ys) (nxs ++ nm :: nys)
            (cxs ++ c0 :: cys) hs =
          (st2, l1 ++ skip_message nm t :: l2, .ok ch) := by
  intro xs
  induction xs with
  | nil =>
      intro nxs cxs ys nys cys nm c0 st st2 log ch hn hc h
      have hn0 : nxs = [] := List.length_eq_zero.mp (by simpa using hn)
      have hc0 : cxs = [] := List.length_eq_zero.mp (by simpa using hc)
      subst hn0
      subst hc0
      simp only [List.nil_append] at h ⊢
      refine ⟨[], log, rfl, ?_⟩
      simp only [to_ocp_loop]
      rw [h]
      rfl
  | cons x xs0 ih =>
      intro nxs cxs ys nys cys nm c0 st st2 log ch hn hc h
      cases nxs with
      | nil => simp at hn
      | cons n0 nrest =>
      cases cxs with
      | nil => simp at hc
      | cons cc0 crest =>
      have hn2 : nrest.length = xs0.length := by simpa using hn
      have hc2 : crest.length = xs0.length := by simpa using hc
      simp only [List.cons_append] at h ⊢
      cases x with
      | enumV n =>
          simp only [to_ocp_loop] at h ⊢
          exact ih nrest crest ys nys cys nm c0 st st2 log ch hn2 hc2 h
      | colorV c =>
          simp only [to_ocp_loop] at h ⊢
          exact ih nrest crest ys nys cys nm c0 st st2 log ch hn2 hc2 h
      | scalarV s =>
          simp only [to_ocp_loop] at h ⊢
          exact ih nrest crest ys nys cys nm c0 st st2 log ch hn2 hc2 h
      | unrecV t0 =>
          simp only [to_ocp_loop] at h ⊢
          rcases hinner : to_ocp_loop st (xs0 ++ ys) (nrest ++ nys)
              (crest ++ cys) hs with ⟨st2i, logi, resi⟩
          rw [hinner] at h
          rcases resi with e | chi
          · simp at h
          · simp only [Prod.mk.injEq, Except.ok.injEq] at h
            obtain ⟨h1, h2, h3⟩ := h
            subst h1
            subst h3
            rcases ih _ _ _ _ _ nm c0 _ _ _ _ hn2 hc2 hinner with
              ⟨l1, l2, hlog, heq⟩
            refine ⟨skip_message n0 t0 :: l1, l2, ?_, ?_⟩
            · rw [← h2, hlog]
              rfl
            · rw [heq]
              rfl
      | listV xsl =>
          simp only [to_ocp_loop] at h ⊢
          generalize hh : handle_one st (.listV xsl) n0
              (prepare_color cc0 (.listV xsl)) hs = hres at h ⊢
          obtain ⟨stA, logA, resA⟩ := hres
          rcases resA with e | node
          · simp at h
          · try dsimp only [] at h ⊢
            generalize hinner : to_ocp_loop stA (xs0 ++ ys) (nrest ++ nys)
                (crest ++ cys) hs = ires at h
            obtain ⟨st3, log3, res3⟩ := ires
            rcases res3 with e | rest
            · simp at h
            · try dsimp only [] at h
              simp only [Prod.mk.injEq, Except.ok.injEq] at h
              obtain ⟨h1, h2, h3⟩ := h
              subst h1
              subst h3
              rcases ih _ _ _ _ _ nm c0 _ _ _ _ hn2 hc2 hinner with
                ⟨l1, l2, hlog, heq⟩
              refine ⟨logA ++ l1, l2, ?_, ?_⟩
              · rw [← h2, hlog, List.append_assoc]
              · rw [heq]
                simp [List.append_assoc]
      | dictV es =>
          simp only [to_ocp_loop] at h ⊢
          generalize hh : handle_one st (.dictV es) n0
              (prepare_color cc0 (.dictV es)) hs = hres at h ⊢
          obtain ⟨stA, logA, resA⟩ := hres
          rcases resA with e | node
          · simp at h
          · try dsimp only [] at h ⊢
            generalize hinner : to_ocp_loop stA (xs0 ++ ys) (nrest ++ nys)
                (crest ++ cys) hs = ires at h
            obtain ⟨st3, log3, res3⟩ := ires
            rcases res3 with e | rest
            · simp at h
            · try dsimp only [] at h
              simp only [Prod.mk.injEq, Except.ok.injEq] at h
              obtain ⟨h1, h2, h3⟩ := h
              subst h1
              subst h3
              rcases ih _ _ _ _ _ nm c0 _ _ _ _ hn2 hc2 hinner with
                ⟨l1, l2, hlog, heq⟩
              refine ⟨logA ++ l1, l2, ?_, ?_⟩
              · rw [← h2, hlog, List.append_assoc]
              · rw [heq]
                simp [List.append_assoc]
      | assemblyV lbl lv chl =>
          simp only [to_ocp_loop] at h ⊢
          generalize hh : handle_one st (.assemblyV lbl lv chl) n0
              (prepare_color cc0 (.assemblyV lbl lv chl)) hs = hres at h ⊢
          obtain ⟨stA, logA, resA⟩ := hres
          rcases resA with e | node
          · simp at h
          · try dsimp only [] at h ⊢
            generalize hinner : to_ocp_loop stA (xs0 ++ ys) (nrest ++ nys)
                (crest ++ cys) hs = ires at h
            obtain ⟨st3, log3, res3⟩ := ires
            rcases res3 with e | rest
            · simp at h
            · try dsimp only [] at h
              simp only [Prod.mk.injEq, Except.ok.injEq] at h
              obtain ⟨h1, h2, h3⟩ := h
              subst h1
              subst h3
              rcases ih _ _ _ _ _ nm c0 _ _ _ _ hn2 hc2 hinner with
                ⟨l1, l2, hlog, heq⟩
              refine ⟨logA ++ l1, l2, ?_, ?_⟩
              · rw [← h2, hlog, List.append_assoc]
              · rw [heq]
                simp [List.append_assoc]
      | shapeV sh ca =>
          simp only [to_ocp_loop] at h ⊢
          generalize hh : handle_one st (.shapeV sh ca) n0
              (prepare_color cc0 (.shapeV sh ca)) hs = hres at h ⊢
          obtain ⟨stA, logA, resA⟩ := hres
          rcases resA with e | node
          · simp at h
          · try dsimp only [] at h ⊢
            generalize hinner : to_ocp_loop stA (xs0 ++ ys) (nrest ++ nys)
                (crest ++ cys) hs = ires at h
            obtain ⟨st3, log3, res3⟩ := ires
            rcases res3 with e | rest
            · simp at h
            · try dsimp only [] at h
              simp only [Prod.mk.injEq, Except.ok.injEq] at h
              obtain ⟨h1, h2, h3⟩ := h
              subst h1
              subst h3
              rcases ih _ _ _ _ _ nm c0 _ _ _ _ hn2 hc2 hinner with
                ⟨l1, l2, hlog, heq⟩
              refine ⟨logA ++ l1, l2, ?_, ?_⟩
              · rw [← h2, hlog, List.append_assoc]
              · rw [heq]
                simp [List.append_assoc]
/-- Reduction of to_ocp for a well-sized names list and defaulted colors
and alphas: validation passes and the result is the loop outcome wrapped
by the group epilogue. -/
theorem to_ocp_reduce_names (st : List (Entry L)) (objs : List (CadValue L))
    (ns : List String) (loc : Option L) (hs : ℚ)
    (hlen : ns.length = objs.length) :
    to_ocp st objs (some ns) none none loc hs =
      (match to_ocp_loop st objs ((make_unique ns).map some)
          (List.replicate objs.length none) hs with
        | (st2, log2, .error e) => (st2, log2, .error e)
        | (st2, log2, .ok children) =>
            (st2, log2, .ok (finalize_group loc children))) := by
  unfold to_ocp
  simp [hlen]

/--
C8: a value that fails every capability predicate of the filter (and is
not a silently-skipped scalar/enum/color) is dropped from the output
tree with a diagnostic naming its slot name and its type, the
conversion does not fail, and all sibling objects of the same call are
still processed and appear unchanged in the output tree: converting the
object list with the unrecognized value inserted yields the same group,
the same instance table, and the same diagnostics except for the one
inserted skip line.
-/
theorem claim_C8 (st : List (Entry L)) (xs ys : List (CadValue L))
    (nxs nys : List String) (t nm : String) (hs : ℚ) (loc : Option L)
    (g : OcpNode L) (st2 : List (Entry L)) (log : List String)
    (hlx : nxs.length = xs.length) (hly : nys.length = ys.length)
    (hnd : (nxs ++ nm :: nys).Nodup)
    (h : to_ocp st (xs ++ ys) (some (nxs ++ nys)) none none loc hs =
      (st2, log, .ok g)) :
    ∃ l1 l2, log = l1 ++ l2 ∧
      to_ocp st (xs ++ .unrecV t :: ys) (some (nxs ++ nm :: nys)) none none
          loc hs =
        (st2, l1 ++ skip_message (some nm) t :: l2, .ok g) := by
  have hsub : (nxs ++ nys).Sublist (nxs ++ nm :: nys) :=
    List.Sublist.append_left (List.sublist_cons_self nm nys) nxs
  have hnd2 : (nxs ++ nys).Nodup := hnd.sublist hsub
  have hmu1 : make_unique (nxs ++ nys) = nxs ++ nys := make_unique_id _ hnd2
  have hmu2 : make_unique (nxs ++ nm :: nys) = nxs ++ nm :: nys :=
    make_unique_id _ hnd
  rw [to_ocp_reduce_names st (xs ++ ys) (nxs ++ nys) loc hs
    (by simp [hlx, hly])] at h
  rw [to_ocp_reduce_names st (xs ++ .unrecV t :: ys) (nxs ++ nm :: nys) loc
    hs (by simp [hlx, hly])]
  rw [hmu1] at h
  rw [hmu2]
  rw [List.map_append] at h
  rw [List.map_append, List.map_cons]
  have hrep1 : List.replicate (xs ++ ys).length (none : Option PColor) =
      List.replicate xs.length none ++ List.replicate ys.length none := by
    rw [List.length_append, List.replicate_add]
  have hrep2 : List.replicate (xs ++ CadValue.unrecV t :: ys).length
        (none : Option PColor) =
      List.replicate xs.length none ++
        (none : Option PColor) :: List.replicate ys.length none := by
    rw [List.length_append, List.length_cons, List.replicate_add,
      List.replicate_succ]
  rw [hrep1] at h
  rw [hrep2]
  generalize hloop : to_ocp_loop st (xs ++ ys)
      (nxs.map some ++ nys.map some)
      (List.replicate xs.length none ++ List.replicate ys.length none) hs =
    lres at h
  obtain ⟨stL, logL, resL⟩ := lres
  rcases resL with e | children
  · simp at h
  · try dsimp only [] at h
    simp only [Prod.mk.injEq, Except.ok.injEq] at h
    obtain ⟨h1, h2, h3⟩ := h
    obtain ⟨l1, l2, hlog, heq⟩ := loop_skip_unrec t hs xs (nxs.map some)
      (List.replicate xs.length none) ys (nys.map some)
      (List.replicate ys.length none) (some nm) none st stL logL children
      (by simp [hlx]) (by simp) hloop
    refine ⟨l1, l2, h2 ▸ hlog, ?_⟩
    · rw [heq]
      try dsimp only []
      rw [h1, h3]

/-- Witness for claim C8: a solid plus an unrecognized value converts to
the same single-leaf group and table as the solid alone, with the skip
diagnostic naming the slot bad and the type Fluffy. -/
theorem claim_C8_witness :
    to_ocp ([] : List (Entry (Multiplicative ℤ)))
        [.shapeV (.basic .solid 0 1) (some ⟨0, 0, 0, 1⟩), .unrecV "Fluffy"]
        (some ["part", "bad"]) none none none 1 =
      ([(.basic .solid 0 1, [.basic .solid 0 1])],
        [skip_message (some "bad") "Fluffy"],
        .ok (.group "" (some 1)
          [.leaf ⟨.solid, some 0, none, "part", some 1, some ⟨0, 0, 0, 1⟩,
            none, some [.basic .solid 0 1]⟩])) := by
  have h0 : to_ocp ([] : List (Entry (Multiplicative ℤ)))
      ([.shapeV (.basic .solid 0 1) (some ⟨0, 0, 0, 1⟩)] ++ [])
      (some (["part"] ++ [])) none none none 1 =
      ([(.basic .solid 0 1, [.basic .solid 0 1])], [],
        .ok (.group "" (some 1)
          [.leaf ⟨.solid, some 0, none, "part", some 1, some ⟨0, 0, 0, 1⟩,
            none, some [.basic .solid 0 1]⟩])) := by
    simp [to_ocp, to_ocp_loop, handle_one, prepare_color, cadColorAttr,
      handle_shapes, unify, unifyPayload, get_color_for_object, Color,
      get_instance, scanInstances, create_cache_id, finalize_group,
      make_unique_names, make_unique, make_unique_aux, nodeName, withName,
      cleanup, get_kind, shapeTypeName, TopoShape.moved, TopoShape.location,
      Except.bind]
  obtain ⟨l1, l2, hlog, heq⟩ := claim_C8
    ([] : List (Entry (Multiplicative ℤ)))
    [.shapeV (.basic .solid 0 1) (some ⟨0, 0, 0, 1⟩)] [] ["part"] []
    "Fluffy" "bad" 1 none _ _ _ (by decide) (by decide) (by decide) h0
  have hl : l1 = [] ∧ l2 = [] := List.append_eq_nil.mp hlog.symm
  rw [hl.1, hl.2] at heq
  exact heq

end OcpTess
